import Mathlib

/-!
Verification development for the memmer membership-management engine.

The database-backed Python code is shallowly embedded: the relevant ORM
tables become lists inside an explicit `State` record, `Decimal` becomes `ℚ`
(exact decimal arithmetic), `datetime.date` becomes a year/month/day record
compared lexicographically, and code that can raise (missing fixed-cost keys
or settings, failed assertions, missing output directory) returns `Option`
or `Except`.  Python's stable `sorted` is embedded as `List.mergeSort`,
which is likewise stable; `sorted(xs, reverse=True)` with key `k` becomes
`mergeSort` with the comparison `k b ≤ k a`.

Index-based bookkeeping in `compute_discount` (parallel arrays `relatives`
and `fees` addressed through index lists) is embedded by the list of
`(member, fee)` pairs that those indices select, in the same order; this is
faithful because `get_relatives` never returns the member itself nor a
duplicate, so the pairs are in bijection with the indices.
-/

namespace Memmer

/-- Calendar date, mirroring `datetime.date`; ordered lexicographically. -/
structure Date where
  year : Int
  month : Int
  day : Int
deriving DecidableEq, Repr

/-- Embedding of the chronological strict order on `datetime.date`. -/
def Date.ltB (a b : Date) : Bool :=
  a.year < b.year ||
    (a.year == b.year &&
      (a.month < b.month || (a.month == b.month && a.day < b.day)))

/-- Embedding of the chronological non-strict order on `datetime.date`. -/
def Date.leB (a b : Date) : Bool :=
  Date.ltB a b || a == b

/-- Row of the members table (the columns the fee and tally engine reads). -/
structure Member where
  id : Nat
  birthday : Date
  entry_date : Date
  exit_date : Option Date
  is_honorary_member : Bool
  sepa_mandate_date : Option Date
deriving DecidableEq, Repr

/-- Row of the sessions table (a training group with its monthly fee). -/
structure TrainingSession where
  id : Nat
  membership_fee : ℚ
deriving DecidableEq, Repr

/-- Row of the participations table: a time-windowed (member, session)
link; `untilDate` stands for the source column named after the keyword. -/
structure Participation where
  member_id : Nat
  session_id : Nat
  since : Date
  untilDate : Option Date
deriving DecidableEq, Repr

/-- Row of the trainers association table: the member trains the session. -/
structure Trainer where
  member_id : Nat
  session_id : Nat
deriving DecidableEq, Repr

/-- Row of the relations table: an undirected family edge between two ids. -/
structure Relation where
  first_id : Nat
  second_id : Nat
deriving DecidableEq, Repr

/-- Row of the feeoverrides table. -/
structure FeeOverride where
  member_id : Nat
  amount : ℚ
deriving DecidableEq, Repr

/-- Row of the onetimecosts table. -/
structure OneTimeFee where
  id : Nat
  member_id : Nat
  reason : String
  amount : ℚ
deriving DecidableEq, Repr

/-- Row of the archived_onetimecosts table; `billed` is the insertion
timestamp (an abstract tick). -/
structure ArchivedOneTimeFee where
  member_id : Nat
  reason : String
  amount : ℚ
  billed : Int
deriving DecidableEq, Repr

/-- Row of the fixedcosts table. -/
structure FixedCost where
  name : String
  cost : ℚ
deriving DecidableEq, Repr

/-- Row of the settings table. -/
structure Setting where
  name : String
  value : String
deriving DecidableEq, Repr

/-- Row of the tallies table (the serialized XML contents are kept out of
the model; `total_amount` is the parsed control sum). -/
structure Tally where
  creation_time : Int
  collection_date : Date
  total_amount : ℚ
deriving DecidableEq, Repr

/-- The database state read and written by the engine. -/
structure State where
  members : List Member
  sessions : List TrainingSession
  participations : List Participation
  trainers : List Trainer
  relations : List Relation
  fee_overrides : List FeeOverride
  one_time_fees : List OneTimeFee
  archived_one_time_fees : List ArchivedOneTimeFee
  fixed_costs : List FixedCost
  settings : List Setting
  tallies : List Tally
deriving DecidableEq, Repr

/-- Modelled from the spec: the package init module defining the literal
fixed-cost key strings is not under src; the keys are opaque identifiers,
so the spec names are used. -/
def BasicFeeYouthsKey : String := "youth-base-fee"

/-- Modelled from the spec: adult base fee key (see `BasicFeeYouthsKey`). -/
def BasicFeeAdultsKey : String := "adult-base-fee"

/-- Modelled from the spec: trainer base fee key (see `BasicFeeYouthsKey`). -/
def BasicFeeTrainersKey : String := "trainer-base-fee"

/-- Setting key `Setting.TALLY_E2E_ID_TEMPLATE`. -/
def TallyE2EIdTemplateKey : String := "tally_end_to_end_template"

/-- Setting key `Setting.TALLY_PURPOSE`. -/
def TallyPurposeKey : String := "tally_purpose"

/-- Setting key `Setting.TALLY_CREDITOR_NAME`. -/
def TallyCreditorNameKey : String := "tally_creditor_name"

/-- Setting key `Setting.TALLY_CREDITOR_IBAN`. -/
def TallyCreditorIbanKey : String := "tally_creditor_iban"

/-- Setting key `Setting.TALLY_CREDITOR_BIC`. -/
def TallyCreditorBicKey : String := "tally_creditor_bic"

/-- Setting key `Setting.TALLY_CREDITOR_ID`. -/
def TallyCreditorIdKey : String := "tally_creditor_identification"

/-- Embedding of `get_fixed_cost`: `none` models the raised RuntimeError
when no fixed cost with the given key exists. -/
def getFixedCost (st : State) (key : String) : Option ℚ :=
  (st.fixed_costs.find? (fun fc => fc.name == key)).map (fun fc => fc.cost)

/-- Embedding of the settings lookup `select(Setting.value).where(...)`
followed by `.one()`: `none` models the raised error when absent. -/
def getSetting (st : State) (key : String) : Option String :=
  (st.settings.find? (fun s => s.name == key)).map (fun s => s.value)

/-- Lookup of the fee override row for a member id (the
`select(FeeOverride).where(member_id == ...)` scalar query). -/
def findOverride (st : State) (memberId : Nat) : Option ℚ :=
  (st.fee_overrides.find? (fun o => o.member_id == memberId)).map
    (fun o => o.amount)

/-- Lookup of a member row by primary key. -/
def findMember (st : State) (memberId : Nat) : Option Member :=
  st.members.find? (fun m => m.id == memberId)

/-- Embedding of `utils.active.is_active`. -/
def isActive (m : Member) (targetDate : Date) : Bool :=
  if Date.ltB targetDate m.entry_date then false
  else
    match m.exit_date with
    | none => true
    | some e => Date.ltB targetDate e

/-- Embedding of `utils.time.nominal_year_diff`. -/
def nominalYearDiff (first second : Date) : Int :=
  let years := second.year - first.year
  if second.month < first.month then years - 1
  else if second.month == first.month && second.day < first.day then years - 1
  else years

/-- Whether the member counts as a child (nominal age below 18) at the
target date, as tested throughout `compute_discount`. -/
def isChild (m : Member) (targetDate : Date) : Bool :=
  decide (nominalYearDiff m.birthday targetDate < 18)

/-- Embedding of `get_relatives`: walk the relation rows touching the
member id and collect both endpoints, skipping the member itself and
duplicates.  Object identity of ORM rows is id equality.  The source
asserts that both endpoint lookups succeed (guaranteed by the schema
foreign keys); a dangling endpoint contributes nothing here. -/
def getRelatives (st : State) (m : Member) : List Member :=
  let rels := st.relations.filter
    (fun r => r.first_id == m.id || r.second_id == m.id)
  rels.foldl
    (fun acc r =>
      let acc1 :=
        match findMember st r.first_id with
        | some first =>
            if first.id != m.id && !(acc.any (fun x => x.id == first.id)) then
              acc ++ [first]
            else acc
        | none => acc
      match findMember st r.second_id with
      | some second =>
          if second.id != m.id && !(acc1.any (fun x => x.id == second.id)) then
            acc1 ++ [second]
          else acc1
      | none => acc1)
    []

/-- Embedding of `are_related`. -/
def areRelated (st : State) (first second : Member) : Bool :=
  st.relations.any
    (fun r =>
      (r.first_id == first.id && r.second_id == second.id) ||
        (r.second_id == first.id && r.first_id == second.id))

/-- Embedding of `make_relation`: when the two members are not yet related,
link every relative of the first to the second, every relative of the
second to the first, and finally the two members themselves. -/
def makeRelation (st : State) (first second : Member) : State :=
  if areRelated st first second then st
  else
    let firstRelatives := getRelatives st first
    let secondRelatives := getRelatives st second
    let newRels :=
      firstRelatives.map (fun c => Relation.mk c.id second.id) ++
        secondRelatives.map (fun c => Relation.mk c.id first.id) ++
          [Relation.mk first.id second.id]
    { st with relations := st.relations ++ newRels }

/-- The membership fees of the sessions the member actively participates in
at the target date (the session-fee collection loop of
`compute_monthly_fee`).  `member.participating_sessions` is the sessions
linked through a participation row; the per-session participation lookup
takes the first matching row, whose window is then tested. -/
def sessionFees (st : State) (m : Member) (targetDate : Date) : List ℚ :=
  let participating := st.sessions.filter
    (fun s => st.participations.any
      (fun p => p.member_id == m.id && p.session_id == s.id))
  participating.foldl
    (fun fees s =>
      match st.participations.find?
          (fun p => p.member_id == m.id && p.session_id == s.id) with
      | some p =>
          if Date.leB p.since targetDate &&
              (match p.untilDate with
               | none => true
               | some u => Date.ltB targetDate u) then
            fees ++ [s.membership_fee]
          else fees
      | none => fees)
    []

/-- Number of sessions the member trains (`member.trained_sessions`). -/
def trainedSessionCount (st : State) (m : Member) : Nat :=
  (st.trainers.filter (fun t => t.member_id == m.id)).length

/-- The base-fee part of `compute_monthly_fee`: nothing for honorary
members, else the trainer, youth, or adult fixed cost. -/
def baseFee (st : State) (m : Member) (targetDate : Date) : Option ℚ :=
  if m.is_honorary_member then some 0
  else if 0 < trainedSessionCount st m then
    getFixedCost st BasicFeeTrainersKey
  else if nominalYearDiff m.birthday targetDate < 18 then
    getFixedCost st BasicFeeYouthsKey
  else getFixedCost st BasicFeeAdultsKey

/-- The session-fee part of `compute_monthly_fee`: sort descending, add the
most expensive fully and 75 percent of the second most expensive. -/
def topTwoContribution (fees : List ℚ) : ℚ :=
  let sortedFees := fees.mergeSort (fun a b => decide (b ≤ a))
  (match sortedFees.head? with
   | some x => x
   | none => 0) +
    (match sortedFees[1]? with
     | some y => (3 / 4 : ℚ) * y
     | none => 0)

/-- Embedding of `compute_monthly_fee` with `apply_discounts=False` (the
variant `compute_discount` applies to every family member): membership
window check, fee override, then base fee plus session fees. -/
def computeMonthlyFeeND (st : State) (m : Member) (targetDate : Date) :
    Option ℚ :=
  if (match m.exit_date with
      | some e => Date.leB e targetDate
      | none => false) then some 0
  else if Date.ltB targetDate m.entry_date then some 0
  else
    match findOverride st m.id with
    | some amt => some amt
    | none =>
        match baseFee st m targetDate with
        | none => none
        | some base =>
            some (base + topTwoContribution (sessionFees st m targetDate))

/-- Comparison used for `sorted(adult_indices, key=fees, reverse=True)`:
descending fee, stable on ties. -/
def feeDescB (a b : Member × ℚ) : Bool :=
  decide (b.2 ≤ a.2)

/-- Comparison used for `sorted(overall, key=(fees, id), reverse=True)`:
descending fee with ties broken by descending member id. -/
def feeIdDescB (a b : Member × ℚ) : Bool :=
  decide (b.2 < a.2 ∨ (b.2 = a.2 ∧ b.1.id ≤ a.1.id))

/-- Comparison used for `sorted(filtered, key=id)`: ascending member id. -/
def idAscB (a b : Member × ℚ) : Bool :=
  decide (a.1.id ≤ b.1.id)

/-- Embedding of the body of `compute_discount`, abstracted over the fee
function applied to each family member (the source always passes
`compute_monthly_fee` with `apply_discounts=False`).  Parallel index
arrays of the source are represented by `(member, fee)` pairs. -/
def computeDiscountCore (feeOf : Member → Option ℚ) (relatives0 : List Member)
    (m : Member) (targetDate : Date) : Option ℚ :=
  let relatives1 := relatives0.filter (fun x => isActive x targetDate)
  if relatives1.length = 0 then some 1
  else
    let relatives := relatives1 ++ [m]
    match relatives.mapM feeOf with
    | none => none
    | some fees =>
        let pairs := relatives.zip fees
        let children := pairs.filter (fun p => isChild p.1 targetDate)
        let adults := pairs.filter (fun p => !(isChild p.1 targetDate))
        some
          (if 2 ≤ adults.length ∧ 2 ≤ children.length then
            -- Family discount
            let sortedAdults := (adults.mergeSort feeDescB).take 2
            let overall := (children ++ sortedAdults).mergeSort feeIdDescB
            match overall.findIdx? (fun p => p.1.id == m.id) with
            | some i =>
                if 4 ≤ i then (if isChild m targetDate then 0 else 1)
                else if 2 ≤ i then (1 / 2 : ℚ)
                else 1
            | none => 1
          else if isChild m targetDate ∧ 2 ≤ children.length then
            -- Sibling discount
            let childFees :=
              (children.map (fun p => p.2)).mergeSort
                (fun a b => decide (b ≤ a))
            let myFee :=
              match fees.getLast? with
              | some f => f
              | none => 0
            match childFees with
            | f0 :: rest =>
                if myFee < f0 then (1 / 2 : ℚ)
                else
                  match rest with
                  | f1 :: _ =>
                      if f0 = f1 then
                        let filtered :=
                          children.filter (fun p => p.2 == f0)
                        match (filtered.mergeSort idAscB).head? with
                        | some highestPaying =>
                            if highestPaying.1.id ≠ m.id then (1 / 2 : ℚ)
                            else 1
                        | none => 1
                      else 1
                  | [] => 1
            | [] => 1
          else 1)

/-- Embedding of `compute_discount`: the family fees are evaluated with
`apply_discounts=False`, i.e. through `computeMonthlyFeeND`. -/
def computeDiscount (st : State) (m : Member) (targetDate : Date) :
    Option ℚ :=
  computeDiscountCore (fun x => computeMonthlyFeeND st x targetDate)
    (getRelatives st m) m targetDate

/-- Embedding of `compute_monthly_fee`: membership window check, fee
override, base fee plus session fees, and finally the discount factor when
`applyDiscounts` is set. -/
def computeMonthlyFee (st : State) (m : Member) (applyDiscounts : Bool)
    (targetDate : Date) : Option ℚ :=
  if (match m.exit_date with
      | some e => Date.leB e targetDate
      | none => false) then some 0
  else if Date.ltB targetDate m.entry_date then some 0
  else
    match findOverride st m.id with
    | some amt => some amt
    | none =>
        match baseFee st m targetDate with
        | none => none
        | some base =>
            let fee := base + topTwoContribution (sessionFees st m targetDate)
            if applyDiscounts then
              match computeDiscount st m targetDate with
              | none => none
              | some d => some (fee * d)
            else some fee

/-- Sum of the member's outstanding one-time fee amounts
(`member.one_time_fees`). -/
def oneTimeFeeSum (st : State) (memberId : Nat) : ℚ :=
  ((st.one_time_fees.filter (fun f => f.member_id == memberId)).map
    (fun f => f.amount)).sum

/-- Embedding of `compute_total_fee`: the discounted monthly fee plus all
outstanding one-time fees. -/
def computeTotalFee (st : State) (m : Member) (targetDate : Date) :
    Option ℚ :=
  match computeMonthlyFee st m true targetDate with
  | none => none
  | some fee => some (fee + oneTimeFeeSum st m.id)

/-- One debit instruction assembled for a member, mirroring the `Asset`
dataclass of `tally.py`. -/
structure Asset where
  debitor : Member
  purpose : String
  amount : ℚ
  e2e_id : String
deriving DecidableEq, Repr

/-- Rounding to the nearest integer with ties to even, as Python Decimal
formatting with two fractional digits does. -/
def roundHalfEven (x : ℚ) : ℤ :=
  let f := ⌊x⌋
  let frac := x - f
  if frac < 1 / 2 then f
  else if 1 / 2 < frac then f + 1
  else if f % 2 = 0 then f else f + 1

/-- Value denoted by the two-decimal wire string produced by Python
Decimal formatting: quantization to two decimal places, half to even. -/
def quantize2 (x : ℚ) : ℚ :=
  (roundHalfEven (100 * x) : ℚ) / 100

/-- The claim-relevant fields of one `DirectDebitTransactionInformation9`
entry: the mandate id is the debtor member id, the instructed amount is the
two-decimal formatted asset amount (represented by its parsed value), and
the mandate signature date comes from the member row.  The party-name and
template-substitution string fields, which no claim touches, are not
modelled. -/
structure SepaTransaction where
  member_id : Nat
  instd_amt : ℚ
  mandate_signed : Date
deriving DecidableEq, Repr

/-- Embedding of `to_sepa_transactions`: assert non-negative amounts, skip
zero amounts, accumulate the exact total, and build one transaction per
remaining asset.  `none` models a failed assertion (negative amount or
missing mandate date). -/
def toSepaTransactions (assets : List Asset) :
    Option (ℚ × List SepaTransaction) :=
  assets.foldlM
    (fun (acc : ℚ × List SepaTransaction) asset =>
      if asset.amount < 0 then none
      else if asset.amount == 0 then some acc
      else
        match asset.debitor.sepa_mandate_date with
        | none => none
        | some mandateSigned =>
            some
              (acc.1 + asset.amount,
                acc.2 ++
                  [SepaTransaction.mk asset.debitor.id
                    (quantize2 asset.amount) mandateSigned]))
    (0, [])

/-- Embedding of `archive_onetimecosts` for a given member: every
outstanding one-time fee of the member is copied into the archive table
with the insertion timestamp and deleted. -/
def archiveOnetimecosts (st : State) (m : Member) (now : Int) : State :=
  let fees := st.one_time_fees.filter (fun f => f.member_id == m.id)
  { st with
    one_time_fees :=
      st.one_time_fees.filter (fun f => !(f.member_id == m.id)),
    archived_one_time_fees :=
      st.archived_one_time_fees ++
        fees.map (fun f =>
          ArchivedOneTimeFee.mk f.member_id f.reason f.amount now) }

/-- The member query of `assemble_monthly_fee_assets`: members with a
non-null SEPA mandate date, ordered by ascending id. -/
def sortedMandateMembers (st : State) : List Member :=
  (st.members.filter (fun m => m.sepa_mandate_date.isSome)).mergeSort
    (fun a b => decide (a.id ≤ b.id))

/-- Embedding of `assemble_monthly_fee_assets`: select the members with a
SEPA mandate date ordered by ascending id, look up the purpose and
end-to-end template settings, then per member compute the total fee and,
when positive, archive the one-time fees and emit one asset.  The state is
threaded because archiving mutates it; `none` models a raised error
(missing setting or fixed cost). -/
def assembleMonthlyFeeAssets (st : State) (collectionDate : Date)
    (clearOnetimecosts : Bool) (now : Int) :
    Option (List Asset × State) :=
  match getSetting st TallyE2EIdTemplateKey with
  | none => none
  | some e2eTemplate =>
      match getSetting st TallyPurposeKey with
      | none => none
      | some purpose =>
          (sortedMandateMembers st).foldlM
            (fun (acc : List Asset × State) mem =>
              match computeTotalFee acc.2 mem collectionDate with
              | none => none
              | some fee =>
                  if 0 < fee then
                    some (acc.1 ++ [Asset.mk mem purpose fee e2eTemplate],
                      if clearOnetimecosts then
                        archiveOnetimecosts acc.2 mem now
                      else acc.2)
                  else some acc)
            ([], st)

/-- The claim-relevant fields of the serialized pain.008 document: the
transaction count, the control sum (represented by the value of its
two-decimal string), the transaction list, and the collection date. -/
structure SepaDocument where
  nb_of_txs : Nat
  ctrl_sum : ℚ
  transactions : List SepaTransaction
  collection_date : Date
deriving DecidableEq, Repr

/-- Embedding of `create_sepa_payment_initiation_message_object`: the
source fetches the end-to-end template and purpose settings (raising when
absent, although their values are unused here), converts the assets, and
places the formatted control sum into group header and payment block. -/
def createSepaMessage (st : State) (collectionDate : Date)
    (assets : List Asset) : Option (ℚ × SepaDocument) :=
  match getSetting st TallyE2EIdTemplateKey with
  | none => none
  | some _ =>
      match getSetting st TallyPurposeKey with
      | none => none
      | some _ =>
          match toSepaTransactions assets with
          | none => none
          | some (totalSum, transactions) =>
              some
                (totalSum,
                  SepaDocument.mk transactions.length (quantize2 totalSum)
                    transactions collectionDate)

/-- Failure cases of `create_tally`: any exception raised while preparing
the message (missing setting, missing fixed cost, failed assertion), or
the failing file write when the output directory does not exist.  The
state at the moment the exception propagates is carried alongside, since
the SQLAlchemy session keeps all mutations performed so far. -/
inductive TallyError where
  | preparationFailure
  | outputDirMissing
deriving DecidableEq, Repr

/-- Embedding of `create_tally` for the regular monthly tally (no explicit
asset list passed): fetch the creditor settings, assemble the assets with
one-time fee clearing, build the document, write the output file (which
raises when the output directory is missing), and only then insert the
Tally row recording the parsed control sum.  The filesystem is modelled by
the flag saying whether the output directory exists. -/
def createTally (st : State) (outputDirExists : Bool)
    (collectionDate : Date) (now : Int) :
    Except (TallyError × State) (State × Tally × SepaDocument) :=
  match getSetting st TallyCreditorNameKey, getSetting st TallyCreditorIbanKey,
      getSetting st TallyCreditorBicKey, getSetting st TallyCreditorIdKey with
  | some _, some _, some _, some _ =>
      match assembleMonthlyFeeAssets st collectionDate true now with
      | none => .error (.preparationFailure, st)
      | some (assets, st1) =>
          match createSepaMessage st1 collectionDate assets with
          | none => .error (.preparationFailure, st1)
          | some (_totalSum, doc) =>
              if outputDirExists then
                let tally := Tally.mk now collectionDate doc.ctrl_sum
                (.ok ({ st1 with tallies := st1.tallies ++ [tally] }, tally,
                  doc))
              else .error (.outputDirMissing, st1)
  | _, _, _, _ => .error (.preparationFailure, st)

/-! ## Concrete fixtures used by the witness theorems -/

/-- Date of the running examples. -/
def exTarget : Date := ⟨2024, 6, 1⟩

/-- Child member with the lower id (registered first). -/
def exSally : Member :=
  ⟨1, ⟨2015, 1, 1⟩, ⟨2020, 1, 1⟩, none, false, some ⟨2020, 1, 1⟩⟩

/-- Child member with the higher id, sibling of the first. -/
def exSam : Member :=
  ⟨2, ⟨2016, 1, 1⟩, ⟨2020, 1, 1⟩, none, false, some ⟨2020, 1, 1⟩⟩

/-- Unrelated adult member. -/
def exDirk : Member := ⟨3, ⟨1980, 1, 1⟩, ⟨2020, 1, 1⟩, none, false, none⟩

/-- Fixed-cost table of the examples: youth 4, adult 5, trainer 1. -/
def exCosts : List FixedCost :=
  [⟨BasicFeeYouthsKey, 4⟩, ⟨BasicFeeAdultsKey, 5⟩, ⟨BasicFeeTrainersKey, 1⟩]

/-- Base example state: two related child siblings and one adult. -/
def exState : State :=
  { members := [exSally, exSam, exDirk]
    sessions := []
    participations := []
    trainers := []
    relations := [⟨1, 2⟩]
    fee_overrides := []
    one_time_fees := []
    archived_one_time_fees := []
    fixed_costs := exCosts
    settings := []
    tallies := [] }

/-- Example state where the adult participates in three sessions with
fees 28, 8 and 20. -/
def exStateSessions : State :=
  { exState with
    sessions := [⟨10, 28⟩, ⟨11, 8⟩, ⟨12, 20⟩]
    participations :=
      [⟨3, 10, ⟨2020, 1, 1⟩, none⟩, ⟨3, 11, ⟨2020, 1, 1⟩, none⟩,
        ⟨3, 12, ⟨2020, 1, 1⟩, none⟩] }

/-- Member who exited in 2020 but still owes a one-time fee. -/
def exExited : Member :=
  ⟨7, ⟨1980, 1, 1⟩, ⟨2000, 1, 1⟩, some ⟨2020, 1, 1⟩, false, some ⟨2001, 1, 1⟩⟩

/-- State with the exited member, an outstanding one-time fee of 10, and
the tally settings configured. -/
def exTallyState : State :=
  { exState with
    members := [exExited]
    relations := []
    one_time_fees := [⟨1, 7, "admission", 10⟩]
    settings :=
      [⟨TallyE2EIdTemplateKey, "T-mem"⟩, ⟨TallyPurposeKey, "dues"⟩,
        ⟨TallyCreditorNameKey, "club"⟩, ⟨TallyCreditorIbanKey, "DE00"⟩,
        ⟨TallyCreditorBicKey, "BIC"⟩, ⟨TallyCreditorIdKey, "CID"⟩] }

/-- Adult member used in the relation examples, identified by its id. -/
def exRelMember (i : Nat) : Member :=
  ⟨i, ⟨1980, 1, 1⟩, ⟨2020, 1, 1⟩, none, false, none⟩

/-- Relation example: four members and no relation rows yet. -/
def exRelState0 : State :=
  { exState with
    members := [exRelMember 1, exRelMember 2, exRelMember 3, exRelMember 4]
    relations := [] }

/-- Relation example after relating 1-2, then 3-4, then 1-3 through
`make_relation`. -/
def exRelState3 : State :=
  makeRelation
    (makeRelation (makeRelation exRelState0 (exRelMember 1) (exRelMember 2))
      (exRelMember 3) (exRelMember 4))
    (exRelMember 1) (exRelMember 3)

/-- Asset produced for one member by one loop iteration of
`assemble_monthly_fee_assets`, evaluated against a fixed state: the asset
with the total fee as amount when that fee is positive, nothing
otherwise. -/
def assetSpec (st : State) (cd : Date) (purpose e2e : String) (mem : Member) :
    Option Asset :=
  match computeTotalFee st mem cd with
  | none => none
  | some fee => if 0 < fee then some (Asset.mk mem purpose fee e2e) else none

/-- The state obtained from `st` after archiving, with timestamp `now`, the
one-time fees of exactly the members whose ids are listed in `billed`. -/
def billedState (st : State) (billed : List Nat) (now : Int) : State :=
  { st with
    one_time_fees :=
      st.one_time_fees.filter
        (fun f => !(billed.any (fun i => f.member_id == i)))
    archived_one_time_fees :=
      st.archived_one_time_fees ++
        billed.flatMap (fun i =>
          (st.one_time_fees.filter (fun f => f.member_id == i)).map
            (fun f => ArchivedOneTimeFee.mk f.member_id f.reason f.amount now)) }

/-- The session state expected after the failed tally creation of the
output-directory example: the one-time fee has been archived. -/
def exArchivedState : State :=
  { exTallyState with
    one_time_fees := []
    archived_one_time_fees := [⟨7, "admission", 10, 99⟩] }

/-- Adult id 1 of the family-discount example. -/
def exAdult1 : Member := ⟨1, ⟨1980, 1, 1⟩, ⟨2020, 1, 1⟩, none, false, none⟩

/-- Adult id 2 of the family-discount example. -/
def exAdult2 : Member := ⟨2, ⟨1982, 1, 1⟩, ⟨2020, 1, 1⟩, none, false, none⟩

/-- Child id 3 of the family-discount example. -/
def exChild3 : Member := ⟨3, ⟨2010, 1, 1⟩, ⟨2020, 1, 1⟩, none, false, none⟩

/-- Child id 4 of the family-discount example. -/
def exChild4 : Member := ⟨4, ⟨2012, 1, 1⟩, ⟨2020, 1, 1⟩, none, false, none⟩

/-- Child id 5 of the family-discount example. -/
def exChild5 : Member := ⟨5, ⟨2014, 1, 1⟩, ⟨2020, 1, 1⟩, none, false, none⟩

/-- Family-discount example state: two adults and three children, all
mutually related. -/
def exFamilyState : State :=
  { exState with
    members := [exAdult1, exAdult2, exChild3, exChild4, exChild5]
    relations :=
      [⟨1, 2⟩, ⟨1, 3⟩, ⟨1, 4⟩, ⟨1, 5⟩, ⟨2, 3⟩, ⟨2, 4⟩, ⟨2, 5⟩, ⟨3, 4⟩,
        ⟨3, 5⟩, ⟨4, 5⟩] }

/-! ## General lemmas about the embedded primitives -/

/-- Chronological strict order on dates, unfolded to a proposition. -/
theorem date_ltB_iff (a b : Date) :
    Date.ltB a b = true ↔
      (a.year < b.year ∨ (a.year = b.year ∧
        (a.month < b.month ∨ (a.month = b.month ∧ a.day < b.day)))) := by
  simp [Date.ltB]

/-- Chronological non-strict order on dates, unfolded. -/
theorem date_leB_iff (a b : Date) :
    Date.leB a b = true ↔ (Date.ltB a b = true ∨ a = b) := by
  simp [Date.leB]

/-- The strict and non-strict date orders are complementary. -/
theorem date_not_ltB (a b : Date) :
    Date.ltB a b = false ↔ Date.leB b a = true := by
  obtain ⟨y1, m1, dd1⟩ := a
  obtain ⟨y2, m2, dd2⟩ := b
  rw [← Bool.not_eq_true, date_leB_iff, date_ltB_iff, date_ltB_iff]
  simp only [Date.mk.injEq]
  omega

/-- With discounts disabled, `compute_monthly_fee` is exactly the
non-discounted fee function. -/
theorem mf_false_eq_nd (st : State) (m : Member) (d : Date) :
    computeMonthlyFee st m false d = computeMonthlyFeeND st m d := by
  simp only [computeMonthlyFee, computeMonthlyFeeND, Bool.false_eq_true,
    if_false]

/-- Sorting descending with the embedded comparison yields the unique
descending-sorted permutation. -/
theorem mergeSortDesc_eq (l sorted : List ℚ) (hperm : sorted.Perm l)
    (hsorted : sorted.Sorted (fun p q => q ≤ p)) :
    l.mergeSort (fun p q => decide (q ≤ p)) = sorted := by
  have hanti : IsAntisymm ℚ (fun p q => q ≤ p) :=
    ⟨fun x z h1 h2 => le_antisymm h2 h1⟩
  apply @List.eq_of_perm_of_sorted ℚ (fun p q => q ≤ p) hanti _ _
    ((List.mergeSort_perm l _).trans hperm.symm)
  · have := @List.sorted_mergeSort ℚ (fun p q : ℚ => decide (q ≤ p))
      (by intro x z w hxz hzw
          simp only [decide_eq_true_eq] at *
          exact le_trans hzw hxz)
      (by intro x z
          simp only [Bool.or_eq_true, decide_eq_true_eq]
          exact le_total z x)
      l
    exact this.imp (by intro x z h; simpa using h)
  · exact hsorted

/-! ## Claim theorems -/

/-- C5: membership-window zeroing takes precedence over everything else.
Whenever the target date lies at or after the exit date, or strictly
before the entry date, the monthly fee is 0 (for either discount flag and
even when a fee override exists, since no override hypothesis is made),
while the total fee still collects exactly the outstanding one-time
fee amounts. -/
theorem C5_membership_window_zeroing (st : State) (m : Member) (d : Date)
    (h : (∃ e, m.exit_date = some e ∧ Date.leB e d = true) ∨
      Date.ltB d m.entry_date = true) :
    (∀ applyDiscounts : Bool,
        computeMonthlyFee st m applyDiscounts d = some 0) ∧
      computeTotalFee st m d = some (oneTimeFeeSum st m.id) := by
  have hmf : ∀ b : Bool, computeMonthlyFee st m b d = some 0 := by
    intro b
    unfold computeMonthlyFee
    by_cases hex : (match m.exit_date with
        | some e => Date.leB e d
        | none => false) = true
    · rw [if_pos hex]
    · rw [if_neg hex]
      rcases h with ⟨e, he, hle⟩ | hlt
      · exact absurd (by rw [he]; exact hle) hex
      · rw [if_pos hlt]
  refine ⟨hmf, ?_⟩
  unfold computeTotalFee
  simp only [hmf true, zero_add]

/-- Witness for C5 at the exited member with an outstanding one-time fee
of 10: the monthly fee is 0 while the total fee is exactly 10. -/
theorem C5_membership_window_zeroing_witness :
    computeMonthlyFee exTallyState exExited true exTarget = some 0 ∧
      computeTotalFee exTallyState exExited exTarget =
        some (oneTimeFeeSum exTallyState exExited.id) ∧
      oneTimeFeeSum exTallyState exExited.id = 10 := by
  have h := C5_membership_window_zeroing exTallyState exExited exTarget
    (Or.inl ⟨⟨2020, 1, 1⟩, rfl, by decide⟩)
  refine ⟨h.1 true, h.2, ?_⟩
  norm_num [oneTimeFeeSum, exTallyState, exExited, exState]

/-- C3: discount factorization and recursion guard.  For a member without
a fee override, the discounted monthly fee is the non-discounted monthly
fee times the discount factor; and the discount factor is computed by
feeding every family member through `compute_monthly_fee` with
`apply_discounts=False`, never re-entering the discount path. -/
theorem C3_discount_factorization (st : State) (m : Member) (d : Date)
    (hov : findOverride st m.id = none) (fee disc : ℚ)
    (hfee : computeMonthlyFee st m false d = some fee)
    (hdisc : computeDiscount st m d = some disc) :
    computeMonthlyFee st m true d = some (fee * disc) ∧
      computeDiscount st m d =
        computeDiscountCore (fun x => computeMonthlyFee st x false d)
          (getRelatives st m) m d := by
  constructor
  · unfold computeMonthlyFee at hfee ⊢
    by_cases h1 : (match m.exit_date with
        | some e => Date.leB e d | none => false) = true
    · rw [if_pos h1] at hfee ⊢
      obtain rfl : fee = 0 := by injection hfee with h; exact h.symm
      rw [zero_mul]
    · rw [if_neg h1] at hfee ⊢
      by_cases h2 : Date.ltB d m.entry_date = true
      · rw [if_pos h2] at hfee ⊢
        obtain rfl : fee = 0 := by injection hfee with h; exact h.symm
        rw [zero_mul]
      · rw [if_neg h2] at hfee ⊢
        simp only [hov] at hfee ⊢
        cases hb : baseFee st m d with
        | none => simp only [hb] at hfee; exact absurd hfee (by simp)
        | some base =>
            simp only [hb, Bool.false_eq_true, if_false] at hfee
            simp only [hb, if_true, hdisc]
            injection hfee with hfe
            rw [hfe]
  · unfold computeDiscount
    congr 1

/-- Witness for C3 at the sibling pair: Sam's non-discounted fee is 4, his
discount factor is one half, and the discounted fee is their product. -/
theorem C3_discount_factorization_witness :
    computeMonthlyFee exState exSam true exTarget =
      some ((4 : ℚ) * (1 / 2 : ℚ)) := by
  have h := C3_discount_factorization exState exSam exTarget (by decide)
    4 (1 / 2)
    (by norm_num [computeMonthlyFee, computeMonthlyFeeND, findOverride, baseFee,
      getFixedCost, sessionFees, topTwoContribution, trainedSessionCount,
      nominalYearDiff, Date.ltB, Date.leB, exState, exSam, exTarget, exCosts,
      List.mergeSort])
    (by norm_num [computeDiscount, computeDiscountCore, computeMonthlyFeeND,
      getRelatives, findMember, isActive, isChild, nominalYearDiff,
      findOverride, baseFee, getFixedCost, sessionFees, topTwoContribution,
      trainedSessionCount, feeDescB, feeIdDescB, idAscB, Date.ltB, Date.leB,
      exState, exSally, exSam, exDirk, exTarget, exCosts, List.mergeSort,
      List.merge, List.find?, List.filter, List.foldl, List.mapM,
      List.mapM.loop, List.zip, List.zipWith, List.findIdx?])
  exact h.1

/-- C4: the undiscounted monthly fee of an active member without override
is the base fee (0 when honorary, else the trainer, youth, or adult fixed
cost selected by trainer status and nominal age) plus the session part:
for any descending-sorted arrangement of the fees of the participations
active at the target date, the largest fee in full plus 0.75 times the
second-largest, nothing for the rest. -/
theorem C4_undiscounted_fee_formula (st : State) (m : Member) (d : Date)
    (hactive : isActive m d = true) (hov : findOverride st m.id = none)
    (y a t : ℚ)
    (hy : getFixedCost st BasicFeeYouthsKey = some y)
    (ha : getFixedCost st BasicFeeAdultsKey = some a)
    (ht : getFixedCost st BasicFeeTrainersKey = some t)
    (sorted : List ℚ) (hperm : sorted.Perm (sessionFees st m d))
    (hsorted : sorted.Sorted (fun p q => q ≤ p)) :
    computeMonthlyFee st m false d =
      some ((if m.is_honorary_member then 0
        else if 0 < trainedSessionCount st m then t
        else if nominalYearDiff m.birthday d < 18 then y else a) +
          (sorted.headD 0 + (3 / 4 : ℚ) * sorted.getD 1 0)) := by
  unfold isActive at hactive
  by_cases h2 : Date.ltB d m.entry_date = true
  · rw [if_pos h2] at hactive; exact absurd hactive (by simp)
  · rw [if_neg h2] at hactive
    have h2f : Date.ltB d m.entry_date = false := by
      cases hx : Date.ltB d m.entry_date
      · rfl
      · exact absurd hx h2
    have h1 : (match m.exit_date with
        | some e => Date.leB e d | none => false) = false := by
      cases hex : m.exit_date with
      | none => rfl
      | some e =>
          rw [hex] at hactive
          have hactive2 : Date.ltB d e = true := hactive
          show Date.leB e d = false
          cases hle : Date.leB e d
          · rfl
          · exfalso
            have hf : Date.ltB d e = false := (date_not_ltB d e).mpr hle
            rw [hactive2] at hf
            exact absurd hf (by simp)
    have hms : (sessionFees st m d).mergeSort (fun p q => decide (q ≤ p)) =
        sorted := mergeSortDesc_eq _ _ hperm hsorted
    have htop : topTwoContribution (sessionFees st m d) =
        sorted.headD 0 + (3 / 4 : ℚ) * sorted.getD 1 0 := by
      unfold topTwoContribution
      rw [hms]
      cases sorted with
      | nil => simp
      | cons x rest =>
          cases rest with
          | nil => simp
          | cons z more => simp
    have hbase : baseFee st m d = some (if m.is_honorary_member then 0
        else if 0 < trainedSessionCount st m then t
        else if nominalYearDiff m.birthday d < 18 then y else a) := by
      unfold baseFee
      by_cases hh : m.is_honorary_member
      · simp [hh]
      · by_cases htr : 0 < trainedSessionCount st m
        · simp [hh, htr, ht]
        · by_cases hage : nominalYearDiff m.birthday d < 18
          · simp [hh, htr, hage, hy]
          · simp [hh, htr, hage, ha]
    unfold computeMonthlyFee
    simp only [h1, h2f, Bool.false_eq_true, if_false, hov, hbase, htop]

/-- Witness for C4 at the adult with sessions of fees 28, 8, 20 and adult
base fee 5: the fee is 5 + 28 + 0.75 * 20 = 48, the worked example of the
specification. -/
theorem C4_undiscounted_fee_formula_witness :
    computeMonthlyFee exStateSessions exDirk false exTarget =
      some 48 := by
  have hsess : sessionFees exStateSessions exDirk exTarget = [28, 8, 20] := rfl
  have h := C4_undiscounted_fee_formula exStateSessions exDirk exTarget
    (by decide) (by decide) 4 5 1 rfl rfl rfl
    [28, 20, 8]
    (by rw [hsess]; exact List.Perm.cons 28 (List.Perm.swap 8 20 []))
    (by norm_num [List.sorted_cons])
  norm_num [exDirk, exStateSessions, exState, exTarget, trainedSessionCount,
    nominalYearDiff, List.filter] at h
  exact h

/-- C7: joining the clique containing members 1 and 2 with the clique
containing members 3 and 4 via make_relation(1, 3) leaves members 2 and 4
unrelated: make_relation links the relatives of each argument to the other
argument but never links the relatives of the first to the relatives of
the second, so the relation graph is no longer a disjoint union of cliques
and get_relatives stops returning all transitively connected members
(member 4 is reachable from member 2 via 2-3-4 yet absent). -/
theorem C7_relation_clique_code_bug :
    areRelated exRelState3 (exRelMember 2) (exRelMember 3) = true ∧
      areRelated exRelState3 (exRelMember 3) (exRelMember 4) = true ∧
      areRelated exRelState3 (exRelMember 2) (exRelMember 4) = false ∧
      (getRelatives exRelState3 (exRelMember 2)).map (fun x => x.id) =
        [1, 3] ∧
      (getRelatives exRelState3 (exRelMember 4)).map (fun x => x.id) =
        [3, 1] := by
  refine ⟨?_, ?_, ?_, ?_, ?_⟩ <;> decide

/-! ## Characterization of the assembly fold -/


theorem notBilled (billed : List Nat) (mid : Nat) (h : mid ∉ billed) :
    billed.any (fun i => mid == i) = false := by
  rw [List.any_eq_false]
  intro i hi
  simp only [beq_iff_eq]
  intro hcon
  exact h (hcon ▸ hi)

theorem billedFilter_eq (otf : List OneTimeFee) (billed : List Nat)
    (mid : Nat) (h : mid ∉ billed) :
    (otf.filter (fun f => !(billed.any (fun i => f.member_id == i)))).filter
        (fun f => f.member_id == mid) =
      otf.filter (fun f => f.member_id == mid) := by
  rw [List.filter_filter]
  apply List.filter_congr
  intro f _
  by_cases hf : f.member_id = mid
  · simp [hf, notBilled billed mid h]
  · simp [hf]

theorem computeMonthlyFee_billedState (st : State) (billed : List Nat)
    (now : Int) (m : Member) (b : Bool) (d : Date) :
    computeMonthlyFee (billedState st billed now) m b d =
      computeMonthlyFee st m b d := rfl

theorem oneTimeFeeSum_billedState (st : State) (billed : List Nat)
    (now : Int) (mid : Nat) (h : mid ∉ billed) :
    oneTimeFeeSum (billedState st billed now) mid = oneTimeFeeSum st mid := by
  unfold oneTimeFeeSum
  rw [show (billedState st billed now).one_time_fees =
    st.one_time_fees.filter
      (fun f => !(billed.any (fun i => f.member_id == i))) from rfl]
  rw [billedFilter_eq st.one_time_fees billed mid h]

theorem computeTotalFee_billedState (st : State) (billed : List Nat)
    (now : Int) (m : Member) (d : Date) (h : m.id ∉ billed) :
    computeTotalFee (billedState st billed now) m d =
      computeTotalFee st m d := by
  unfold computeTotalFee
  rw [computeMonthlyFee_billedState,
    oneTimeFeeSum_billedState st billed now m.id h]

theorem billedState_nil (st : State) (now : Int) :
    billedState st [] now = st := by
  obtain ⟨mems, sess, parts, trs, rels, ovs, otf, aotf, fcs, sets, tals⟩ := st
  unfold billedState
  simp only [State.mk.injEq, and_true, true_and]
  constructor
  · simp
  · simp

theorem archive_billedState (st : State) (billed : List Nat) (now : Int)
    (m : Member) (h : m.id ∉ billed) :
    archiveOnetimecosts (billedState st billed now) m now =
      billedState st (billed ++ [m.id]) now := by
  obtain ⟨mems, sess, parts, trs, rels, ovs, otf, aotf, fcs, sets, tals⟩ := st
  unfold archiveOnetimecosts billedState
  simp only [State.mk.injEq, and_true, true_and]
  constructor
  · rw [List.filter_filter]
    apply List.filter_congr
    intro f _
    by_cases hf : f.member_id = m.id
    · simp [hf, notBilled billed m.id h]
    · simp [hf, List.any_append, Bool.not_or, Bool.and_comm]
  · rw [List.flatMap_append, List.append_assoc]
    congr 1
    simp only [List.flatMap_cons, List.flatMap_nil, List.append_nil]
    congr 1
    exact congrArg _ (billedFilter_eq otf billed m.id h)



theorem assembleFold_characterization (st : State) (cd : Date) (now : Int)
    (p e2e : String) (clear : Bool) :
    ∀ (ms : List Member) (as0 : List Asset) (billed : List Nat)
      (res : List Asset × State),
      (ms.map (fun m => m.id)).Nodup →
      (∀ m ∈ ms, m.id ∉ billed) →
      List.foldlM
        (fun (acc : List Asset × State) mem =>
          match computeTotalFee acc.2 mem cd with
          | none => none
          | some fee =>
              if 0 < fee then
                some (acc.1 ++ [Asset.mk mem p fee e2e],
                  if clear then archiveOnetimecosts acc.2 mem now else acc.2)
              else some acc)
        (as0, billedState st billed now) ms = some res →
      res.1 = as0 ++ ms.filterMap (assetSpec st cd p e2e) ∧
      res.2 = billedState st
        (billed ++ (if clear then
          (ms.filterMap (assetSpec st cd p e2e)).map (fun a => a.debitor.id)
          else [])) now := by
  intro ms
  induction ms with
  | nil =>
      intro as0 billed res _ _ h
      rw [List.foldlM_nil] at h
      injection h with h
      subst h
      refine ⟨by simp, ?_⟩
      cases clear <;> simp
  | cons mem ms ih =>
      intro as0 billed res hnodup hdisj h
      rw [List.foldlM_cons] at h
      have hmemb : mem.id ∉ billed := hdisj mem (by simp)
      have hnodup2 : (ms.map (fun m => m.id)).Nodup := by
        rw [List.map_cons, List.nodup_cons] at hnodup
        exact hnodup.2
      have hmemid : mem.id ∉ ms.map (fun m => m.id) := by
        rw [List.map_cons, List.nodup_cons] at hnodup
        exact hnodup.1
      rw [computeTotalFee_billedState st billed now mem cd hmemb] at h
      cases hfee : computeTotalFee st mem cd with
      | none =>
          simp [hfee] at h
      | some fee =>
          simp only [hfee] at h
          have hspec : assetSpec st cd p e2e mem =
              if 0 < fee then some (Asset.mk mem p fee e2e) else none := by
            unfold assetSpec
            rw [hfee]
          by_cases hpos : 0 < fee
          · rw [if_pos hpos] at h
            simp only [Option.bind_eq_bind, Option.some_bind] at h
            cases clear with
            | true =>
                rw [if_pos rfl] at h
                rw [archive_billedState st billed now mem hmemb] at h
                have hdisj2 : ∀ x ∈ ms, x.id ∉ billed ++ [mem.id] := by
                  intro x hx
                  rw [List.mem_append, List.mem_singleton]
                  rintro (hb | hb)
                  · exact hdisj x (by simp [hx]) hb
                  · exact hmemid (hb ▸ List.mem_map_of_mem _ hx)
                obtain ⟨h1, h2⟩ := ih (as0 ++ [Asset.mk mem p fee e2e])
                  (billed ++ [mem.id]) res hnodup2 hdisj2 h
                constructor
                · rw [h1, List.filterMap_cons, hspec, if_pos hpos,
                    List.append_assoc]
                  simp
                · rw [h2, List.filterMap_cons, hspec, if_pos hpos]
                  simp [List.append_assoc]
            | false =>
                rw [if_neg (by simp)] at h
                have hdisj2 : ∀ x ∈ ms, x.id ∉ billed := fun x hx =>
                  hdisj x (by simp [hx])
                obtain ⟨h1, h2⟩ := ih (as0 ++ [Asset.mk mem p fee e2e])
                  billed res hnodup2 hdisj2 h
                constructor
                · rw [h1, List.filterMap_cons, hspec, if_pos hpos,
                    List.append_assoc]
                  simp
                · rw [h2]
                  simp
          · rw [if_neg hpos] at h
            simp only [Option.bind_eq_bind, Option.some_bind] at h
            have hdisj2 : ∀ x ∈ ms, x.id ∉ billed := fun x hx =>
              hdisj x (by simp [hx])
            obtain ⟨h1, h2⟩ := ih as0 billed res hnodup2 hdisj2 h
            constructor
            · rw [h1, List.filterMap_cons, hspec, if_neg hpos]
            · rw [h2, List.filterMap_cons, hspec, if_neg hpos]



theorem sortedMandateMembers_ids_nodup (st : State)
    (hnodup : (st.members.map (fun m => m.id)).Nodup) :
    ((sortedMandateMembers st).map (fun m => m.id)).Nodup := by
  have hsub : ((st.members.filter
      (fun m => m.sepa_mandate_date.isSome)).map (fun m => m.id)).Nodup :=
    ((List.filter_sublist st.members).map (fun m => m.id)).nodup hnodup
  have hperm := List.mergeSort_perm
    (st.members.filter (fun m => m.sepa_mandate_date.isSome))
    (fun a b => decide (a.id ≤ b.id))
  exact ((hperm.map _).nodup_iff).mpr hsub

theorem assemble_characterization (st : State) (cd : Date) (clear : Bool)
    (now : Int) (p e2e : String) (assets : List Asset) (st2 : State)
    (hnodup : (st.members.map (fun m => m.id)).Nodup)
    (he : getSetting st TallyE2EIdTemplateKey = some e2e)
    (hp : getSetting st TallyPurposeKey = some p)
    (h : assembleMonthlyFeeAssets st cd clear now = some (assets, st2)) :
    assets = (sortedMandateMembers st).filterMap (assetSpec st cd p e2e) ∧
      st2 = billedState st
        (if clear then assets.map (fun a => a.debitor.id) else []) now := by
  unfold assembleMonthlyFeeAssets at h
  simp only [he, hp] at h
  have h2 : List.foldlM
      (fun (acc : List Asset × State) mem =>
        match computeTotalFee acc.2 mem cd with
        | none => none
        | some fee =>
            if 0 < fee then
              some (acc.1 ++ [Asset.mk mem p fee e2e],
                if clear then archiveOnetimecosts acc.2 mem now else acc.2)
            else some acc)
      ([], billedState st [] now) (sortedMandateMembers st) =
        some (assets, st2) := by
    rw [billedState_nil]
    exact h
  obtain ⟨h3, h4⟩ := assembleFold_characterization st cd now p e2e clear
    (sortedMandateMembers st) [] [] (assets, st2)
    (sortedMandateMembers_ids_nodup st hnodup) (by simp) h2
  simp only [List.nil_append] at h3 h4
  refine ⟨h3, ?_⟩
  cases clear with
  | true => rw [h4, if_pos rfl, if_pos rfl, h3]
  | false =>
      rw [h4, if_neg (by simp), if_neg (by simp)]




theorem assembleFold_tallies (cd : Date) (now : Int) (p e2e : String)
    (clear : Bool) :
    ∀ (ms : List Member) (acc : List Asset × State)
      (res : List Asset × State),
      List.foldlM
        (fun (acc : List Asset × State) mem =>
          match computeTotalFee acc.2 mem cd with
          | none => none
          | some fee =>
              if 0 < fee then
                some (acc.1 ++ [Asset.mk mem p fee e2e],
                  if clear then archiveOnetimecosts acc.2 mem now else acc.2)
              else some acc)
        acc ms = some res →
      res.2.tallies = acc.2.tallies := by
  intro ms
  induction ms with
  | nil =>
      intro acc res h
      rw [List.foldlM_nil] at h
      injection h with h
      rw [← h]
  | cons mem ms ih =>
      intro acc res h
      rw [List.foldlM_cons] at h
      cases hfee : computeTotalFee acc.2 mem cd with
      | none => simp [hfee] at h
      | some fee =>
          simp only [hfee] at h
          by_cases hpos : 0 < fee
          · rw [if_pos hpos] at h
            simp only [Option.bind_eq_bind, Option.some_bind] at h
            have := ih _ _ h
            rw [this]
            cases clear
            · rfl
            · rfl
          · rw [if_neg hpos] at h
            simp only [Option.bind_eq_bind, Option.some_bind] at h
            exact ih _ _ h

/-- C8 (amended): when the output directory is missing, create_tally
raises before persisting any Tally row (the tallies table is unchanged),
but only after assembling the assets: the session state carried by the
failure is the assembled state, in which one-time fees of billed members
have already been archived; rolling that back is the caller's
responsibility.  The creditor settings and the message construction are
assumed to succeed, as the claim concerns only the missing directory. -/
theorem C8_output_atomicity_amended (st : State) (cd : Date) (now : Int)
    (cn ci cb cc : String) (assets : List Asset) (st1 : State)
    (t : ℚ) (doc : SepaDocument)
    (hc1 : getSetting st TallyCreditorNameKey = some cn)
    (hc2 : getSetting st TallyCreditorIbanKey = some ci)
    (hc3 : getSetting st TallyCreditorBicKey = some cb)
    (hc4 : getSetting st TallyCreditorIdKey = some cc)
    (hassemble : assembleMonthlyFeeAssets st cd true now = some (assets, st1))
    (hmsg : createSepaMessage st1 cd assets = some (t, doc)) :
    createTally st false cd now =
      Except.error (TallyError.outputDirMissing, st1) ∧
      st1.tallies = st.tallies := by
  constructor
  · unfold createTally
    simp only [hc1, hc2, hc3, hc4, hassemble, hmsg, Bool.false_eq_true,
      if_false]
  · unfold assembleMonthlyFeeAssets at hassemble
    cases he : getSetting st TallyE2EIdTemplateKey with
    | none => rw [he] at hassemble; exact absurd hassemble (by simp)
    | some e2e =>
        rw [he] at hassemble
        cases hp : getSetting st TallyPurposeKey with
        | none => rw [hp] at hassemble; exact absurd hassemble (by simp)
        | some p =>
            rw [hp] at hassemble
            have hfold : List.foldlM
                (fun (acc : List Asset × State) mem =>
                  match computeTotalFee acc.2 mem cd with
                  | none => none
                  | some fee =>
                      if 0 < fee then
                        some (acc.1 ++ [Asset.mk mem p fee e2e],
                          if true then archiveOnetimecosts acc.2 mem now
                          else acc.2)
                      else some acc)
                ([], st) (sortedMandateMembers st) = some (assets, st1) :=
              hassemble
            have := assembleFold_tallies cd now p e2e true
              (sortedMandateMembers st) ([], st) (assets, st1) hfold
            exact this


/-- Evaluation of the assembly at the output-directory example: the single
exited member with mandate and an outstanding fee of 10 yields one asset
and the archived state. -/
theorem exAssemble_eval :
    assembleMonthlyFeeAssets exTallyState exTarget true 99 =
      some ([⟨exExited, "dues", 10, "T-mem"⟩], exArchivedState) := by
  have hs1 : getSetting exTallyState TallyE2EIdTemplateKey = some "T-mem" := rfl
  have hs2 : getSetting exTallyState TallyPurposeKey = some "dues" := rfl
  have hm : sortedMandateMembers exTallyState = [exExited] := by
    unfold sortedMandateMembers
    simp [exTallyState, exState, exExited, List.filter]
  have hfee : computeTotalFee exTallyState exExited exTarget = some 10 := by
    norm_num [computeTotalFee, computeMonthlyFee, oneTimeFeeSum, exTallyState,
      exState, exExited, exTarget, Date.ltB, Date.leB, List.filter]
  have harch : archiveOnetimecosts exTallyState exExited 99 =
      exArchivedState := rfl
  norm_num [assembleMonthlyFeeAssets, hs1, hs2, hm, hfee, harch, List.foldlM]

/-- Evaluation of the message construction at the output-directory
example. -/
theorem exMessage_eval :
    createSepaMessage exArchivedState exTarget
        [⟨exExited, "dues", 10, "T-mem"⟩] =
      some (10, ⟨1, 10, [⟨7, 10, ⟨2001, 1, 1⟩⟩], exTarget⟩) := by
  have hs1 : getSetting exArchivedState TallyE2EIdTemplateKey =
      some "T-mem" := rfl
  have hs2 : getSetting exArchivedState TallyPurposeKey = some "dues" := rfl
  have hq : quantize2 10 = 10 := by
    norm_num [quantize2, roundHalfEven]
  norm_num [createSepaMessage, hs1, hs2, toSepaTransactions, List.foldlM,
    exExited, hq]

/-- C8 (counterexample): at the example state, the call of create_tally
with a missing output directory fails with the output-directory error, yet
the session state it leaves behind has the one-time fee of member 7
deleted and archived — refuting the claim that the failure surfaces before
any database mutation and that no one-time fee is archived or deleted by
the failed call. -/
theorem C8_output_atomicity_counterexample :
    createTally exTallyState false exTarget 99 =
      Except.error (TallyError.outputDirMissing, exArchivedState) ∧
      exTallyState.one_time_fees = [⟨1, 7, "admission", 10⟩] ∧
      exArchivedState.one_time_fees = [] ∧
      exArchivedState.archived_one_time_fees = [⟨7, "admission", 10, 99⟩] := by
  refine ⟨?_, rfl, rfl, rfl⟩
  norm_num [createTally, exAssemble_eval, exMessage_eval,
    show getSetting exTallyState TallyCreditorNameKey = some "club" from rfl,
    show getSetting exTallyState TallyCreditorIbanKey = some "DE00" from rfl,
    show getSetting exTallyState TallyCreditorBicKey = some "BIC" from rfl,
    show getSetting exTallyState TallyCreditorIdKey = some "CID" from rfl]

/-- Witness for the amended C8 at the example state. -/
theorem C8_output_atomicity_amended_witness :
    createTally exTallyState false exTarget 99 =
      Except.error (TallyError.outputDirMissing, exArchivedState) ∧
      exArchivedState.tallies = exTallyState.tallies := by
  exact C8_output_atomicity_amended exTallyState exTarget 99
    "club" "DE00" "BIC" "CID" [⟨exExited, "dues", 10, "T-mem"⟩]
    exArchivedState 10 ⟨1, 10, [⟨7, 10, ⟨2001, 1, 1⟩⟩], exTarget⟩
    rfl rfl rfl rfl exAssemble_eval exMessage_eval



theorem toSepaFold_sum (assets : List Asset) :
    ∀ (acc res : ℚ × List SepaTransaction),
      List.foldlM
        (fun (acc : ℚ × List SepaTransaction) asset =>
          if asset.amount < 0 then none
          else if asset.amount == 0 then some acc
          else
            match asset.debitor.sepa_mandate_date with
            | none => none
            | some mandateSigned =>
                some
                  (acc.1 + asset.amount,
                    acc.2 ++
                      [SepaTransaction.mk asset.debitor.id
                        (quantize2 asset.amount) mandateSigned]))
        acc assets = some res →
      res.1 = acc.1 + (assets.map (fun a => a.amount)).sum := by
  induction assets with
  | nil =>
      intro acc res h
      rw [List.foldlM_nil] at h
      injection h with h
      rw [← h]
      simp
  | cons a rest ih =>
      intro acc res h
      rw [List.foldlM_cons] at h
      by_cases hneg : a.amount < 0
      · rw [if_pos hneg] at h
        simp at h
      · rw [if_neg hneg] at h
        by_cases hz : a.amount == 0
        · rw [if_pos hz] at h
          simp only [Option.bind_eq_bind, Option.some_bind] at h
          have := ih acc res h
          rw [this, List.map_cons, List.sum_cons]
          have hz2 : a.amount = 0 := by simpa using hz
          rw [hz2, zero_add]
        · rw [if_neg hz] at h
          cases hmd : a.debitor.sepa_mandate_date with
          | none => rw [hmd] at h; simp at h
          | some md =>
              rw [hmd] at h
              simp only [Option.bind_eq_bind, Option.some_bind] at h
              have := ih _ res h
              rw [this, List.map_cons, List.sum_cons, add_assoc]

theorem toSepaFold_total (assets : List Asset)
    (hpos : ∀ a ∈ assets, 0 ≤ a.amount)
    (hmand : ∀ a ∈ assets, a.debitor.sepa_mandate_date.isSome) :
    ∀ (acc : ℚ × List SepaTransaction),
      ∃ res, List.foldlM
        (fun (acc : ℚ × List SepaTransaction) asset =>
          if asset.amount < 0 then none
          else if asset.amount == 0 then some acc
          else
            match asset.debitor.sepa_mandate_date with
            | none => none
            | some mandateSigned =>
                some
                  (acc.1 + asset.amount,
                    acc.2 ++
                      [SepaTransaction.mk asset.debitor.id
                        (quantize2 asset.amount) mandateSigned]))
        acc assets = some res := by
  induction assets with
  | nil =>
      intro acc
      exact ⟨acc, by rw [List.foldlM_nil]; rfl⟩
  | cons a rest ih =>
      intro acc
      have hnneg : ¬(a.amount < 0) := not_lt.mpr (hpos a (by simp))
      have hpos2 : ∀ x ∈ rest, 0 ≤ x.amount := fun x hx => hpos x (by simp [hx])
      have hmand2 : ∀ x ∈ rest, x.debitor.sepa_mandate_date.isSome :=
        fun x hx => hmand x (by simp [hx])
      rw [List.foldlM_cons]
      by_cases hz : a.amount == 0
      · rw [if_neg hnneg, if_pos hz]
        obtain ⟨res, hres⟩ := ih hpos2 hmand2 acc
        exact ⟨res, by simp only [Option.bind_eq_bind, Option.some_bind]; exact hres⟩
      · cases hmd : a.debitor.sepa_mandate_date with
        | none =>
            exact absurd (hmand a (by simp)) (by rw [hmd]; simp)
        | some md =>
            rw [if_neg hnneg, if_neg hz]
            obtain ⟨res, hres⟩ := ih hpos2 hmand2
              (acc.1 + a.amount,
                acc.2 ++ [SepaTransaction.mk a.debitor.id
                  (quantize2 a.amount) md])
            exact ⟨res, by
              simp only [Option.bind_eq_bind, Option.some_bind]; exact hres⟩



/-- C9: the running total accumulated by to_sepa_transactions is the exact
rational sum of all asset amounts (zero-amount assets are skipped but
contribute nothing); the serialized document carries that exact sum
formatted to two decimals (modelled by its parsed value, a half-to-even
quantization) in its control-sum field; and the Tally row persisted by
create_tally records exactly the parsed control sum of the document as its
total_amount. -/
theorem C9_control_sum_exactness (assets : List Asset)
    (hpos : ∀ a ∈ assets, 0 ≤ a.amount)
    (hmand : ∀ a ∈ assets, a.debitor.sepa_mandate_date.isSome) :
    (∃ txns, toSepaTransactions assets =
        some ((assets.map (fun a => a.amount)).sum, txns)) ∧
      (∀ st cd t doc, createSepaMessage st cd assets = some (t, doc) →
        t = (assets.map (fun a => a.amount)).sum ∧
          doc.ctrl_sum = quantize2 ((assets.map (fun a => a.amount)).sum)) ∧
      (∀ st dir cd now st2 tally doc,
        createTally st dir cd now = Except.ok (st2, tally, doc) →
        tally.total_amount = doc.ctrl_sum) := by
  refine ⟨?_, ?_, ?_⟩
  · obtain ⟨res, hres⟩ := toSepaFold_total assets hpos hmand (0, [])
    obtain ⟨r1, r2⟩ := res
    have hsum : r1 = (assets.map (fun a => a.amount)).sum := by
      have := toSepaFold_sum assets (0, []) (r1, r2) hres
      rw [zero_add] at this
      exact this
    refine ⟨r2, ?_⟩
    unfold toSepaTransactions
    rw [hres, hsum]
  · intro st cd t doc hmsg
    unfold createSepaMessage at hmsg
    cases h1 : getSetting st TallyE2EIdTemplateKey with
    | none => rw [h1] at hmsg; exact absurd hmsg (by simp)
    | some v1 =>
        rw [h1] at hmsg
        cases h2 : getSetting st TallyPurposeKey with
        | none => rw [h2] at hmsg; exact absurd hmsg (by simp)
        | some v2 =>
            rw [h2] at hmsg
            cases htx : toSepaTransactions assets with
            | none => rw [htx] at hmsg; exact absurd hmsg (by simp)
            | some pr =>
                obtain ⟨t0, txns0⟩ := pr
                rw [htx] at hmsg
                have hmsg2 : some (t0, SepaDocument.mk txns0.length
                    (quantize2 t0) txns0 cd) = some (t, doc) := hmsg
                injection hmsg2 with hmsg3
                have ht : t0 = t := congrArg Prod.fst hmsg3
                have hd : SepaDocument.mk txns0.length (quantize2 t0) txns0 cd
                    = doc := congrArg Prod.snd hmsg3
                unfold toSepaTransactions at htx
                have hsum : t0 = (assets.map (fun a => a.amount)).sum := by
                  have := toSepaFold_sum assets (0, []) (t0, txns0) htx
                  rw [zero_add] at this
                  exact this
                constructor
                · rw [← ht, hsum]
                · rw [← hd, ← hsum]
  · intro st dir cd now st2 tally doc h
    unfold createTally at h
    cases h1 : getSetting st TallyCreditorNameKey with
    | none => simp only [h1] at h; exact absurd h (by simp)
    | some v1 =>
        cases h2 : getSetting st TallyCreditorIbanKey with
        | none => simp only [h1, h2] at h; exact absurd h (by simp)
        | some v2 =>
            cases h3 : getSetting st TallyCreditorBicKey with
            | none => simp only [h1, h2, h3] at h; exact absurd h (by simp)
            | some v3 =>
                cases h4 : getSetting st TallyCreditorIdKey with
                | none => simp only [h1, h2, h3, h4] at h; exact absurd h (by simp)
                | some v4 =>
                    simp only [h1, h2, h3, h4] at h
                    cases h5 : assembleMonthlyFeeAssets st cd true now with
                    | none => simp only [h5] at h; exact absurd h (by simp)
                    | some pr =>
                        obtain ⟨as1, st1⟩ := pr
                        simp only [h5] at h
                        cases h6 : createSepaMessage st1 cd as1 with
                        | none => simp only [h6] at h; exact absurd h (by simp)
                        | some pr2 =>
                            obtain ⟨ts, doc0⟩ := pr2
                            simp only [h6] at h
                            cases dir with
                            | false =>
                                simp only [Bool.false_eq_true, if_false] at h
                                exact absurd h (by simp)
                            | true =>
                                simp only [if_true] at h
                                injection h with h
                                have hdoc : doc0 = doc := by
                                  have := congrArg (fun x => x.2.2) h
                                  simpa using this
                                have htal : tally = Tally.mk now cd
                                    doc0.ctrl_sum := by
                                  have := congrArg (fun x => x.2.1) h
                                  simp at this
                                  rw [← this]
                                rw [htal, hdoc]



theorem assetSpec_debitor (st : State) (cd : Date) (p e2e : String)
    (mem : Member) (a : Asset) (h : assetSpec st cd p e2e mem = some a) :
    a.debitor = mem := by
  unfold assetSpec at h
  cases hfee : computeTotalFee st mem cd with
  | none => rw [hfee] at h; exact absurd h (by simp)
  | some fee =>
      simp only [hfee] at h
      by_cases hpos : 0 < fee
      · rw [if_pos hpos] at h
        injection h with h
        rw [← h]
      · rw [if_neg hpos] at h
        exact absurd h (by simp)

theorem filterMap_assetSpec_sublist (st : State) (cd : Date) (p e2e : String) :
    ∀ ms : List Member,
      ((ms.filterMap (assetSpec st cd p e2e)).map
        (fun a => a.debitor)).Sublist ms := by
  intro ms
  induction ms with
  | nil => simp
  | cons x rest ih =>
      rw [List.filterMap_cons]
      cases hx : assetSpec st cd p e2e x with
      | none => exact ih.cons x
      | some a =>
          rw [List.map_cons, assetSpec_debitor st cd p e2e x a hx]
          exact ih.cons₂ x

theorem sortedMandateMembers_pairwise (st : State)
    (hnodup : (st.members.map (fun m => m.id)).Nodup) :
    List.Pairwise (fun a b => a.id < b.id) (sortedMandateMembers st) := by
  have hle : List.Pairwise (fun a b : Member => a.id ≤ b.id)
      (sortedMandateMembers st) := by
    have := @List.sorted_mergeSort Member
      (fun a b : Member => decide (a.id ≤ b.id))
      (by intro x z w hxz hzw
          simp only [decide_eq_true_eq] at *
          exact le_trans hxz hzw)
      (by intro x z
          simp only [Bool.or_eq_true, decide_eq_true_eq]
          exact le_total x.id z.id)
      (st.members.filter (fun m => m.sepa_mandate_date.isSome))
    exact this.imp (by intro x z h; simpa using h)
  have hnods := sortedMandateMembers_ids_nodup st hnodup
  have hne : List.Pairwise (fun a b : Member => a.id ≠ b.id)
      (sortedMandateMembers st) := by
    have h2 : List.Pairwise (fun a b => a ≠ b)
        ((sortedMandateMembers st).map (fun m => m.id)) := hnods
    rw [List.pairwise_map] at h2
    exact h2
  exact (hle.and hne).imp (fun h => lt_of_le_of_ne h.1 h.2)



theorem toSepaFold_ids_sublist (assets : List Asset) :
    ∀ (acc res : ℚ × List SepaTransaction),
      List.foldlM
        (fun (acc : ℚ × List SepaTransaction) asset =>
          if asset.amount < 0 then none
          else if asset.amount == 0 then some acc
          else
            match asset.debitor.sepa_mandate_date with
            | none => none
            | some mandateSigned =>
                some
                  (acc.1 + asset.amount,
                    acc.2 ++
                      [SepaTransaction.mk asset.debitor.id
                        (quantize2 asset.amount) mandateSigned]))
        acc assets = some res →
      ∃ extra, res.2 = acc.2 ++ extra ∧
        (extra.map (fun u => u.member_id)).Sublist
          (assets.map (fun a => a.debitor.id)) := by
  induction assets with
  | nil =>
      intro acc res h
      rw [List.foldlM_nil] at h
      injection h with h
      subst h
      exact ⟨[], by simp⟩
  | cons a rest ih =>
      intro acc res h
      rw [List.foldlM_cons] at h
      by_cases hneg : a.amount < 0
      · rw [if_pos hneg] at h
        simp at h
      · rw [if_neg hneg] at h
        by_cases hz : a.amount == 0
        · rw [if_pos hz] at h
          simp only [Option.bind_eq_bind, Option.some_bind] at h
          obtain ⟨extra, he1, he2⟩ := ih acc res h
          exact ⟨extra, he1, by rw [List.map_cons]; exact he2.cons _⟩
        · rw [if_neg hz] at h
          cases hmd : a.debitor.sepa_mandate_date with
          | none => rw [hmd] at h; simp at h
          | some md =>
              rw [hmd] at h
              simp only [Option.bind_eq_bind, Option.some_bind] at h
              obtain ⟨extra, he1, he2⟩ := ih _ res h
              refine ⟨SepaTransaction.mk a.debitor.id
                (quantize2 a.amount) md :: extra, ?_, ?_⟩
              · rw [he1, List.append_assoc]
                rfl
              · rw [List.map_cons, List.map_cons]
                exact he2.cons₂ _
  
/-- C10 (implicit): the asset list returned by assemble_monthly_fee_assets
is strictly ascending in debtor member id whenever the members table has
unique ids (each member is processed once, in ascending-id order, and
contributes at most one asset), and the transactions of the serialized
document, which drop only zero-amount assets, appear in that same strictly
ascending member-id order. -/
theorem C10_deterministic_asset_order (st : State) (cd : Date) (clear : Bool)
    (now : Int) (assets : List Asset) (st2 : State)
    (hnodup : (st.members.map (fun m => m.id)).Nodup)
    (h : assembleMonthlyFeeAssets st cd clear now = some (assets, st2)) :
    List.Pairwise (fun a b => a.debitor.id < b.debitor.id) assets ∧
      (∀ t txns, toSepaTransactions assets = some (t, txns) →
        List.Pairwise (fun u v => u.member_id < v.member_id) txns) := by
  have hassets : List.Pairwise (fun a b => a.debitor.id < b.debitor.id)
      assets := by
    unfold assembleMonthlyFeeAssets at h
    cases he : getSetting st TallyE2EIdTemplateKey with
    | none => rw [he] at h; exact absurd h (by simp)
    | some e2e =>
        rw [he] at h
        cases hp : getSetting st TallyPurposeKey with
        | none => rw [hp] at h; exact absurd h (by simp)
        | some p =>
            rw [hp] at h
            obtain ⟨h1, _⟩ := assemble_characterization st cd clear now p e2e
              assets st2 hnodup he hp (by
                unfold assembleMonthlyFeeAssets
                rw [he, hp]
                exact h)
            have hpw := sortedMandateMembers_pairwise st hnodup
            have hsub := filterMap_assetSpec_sublist st cd p e2e
              (sortedMandateMembers st)
            rw [← h1] at hsub
            have hpw2 := List.Pairwise.sublist hsub hpw
            rw [List.pairwise_map] at hpw2
            exact hpw2
  refine ⟨hassets, ?_⟩
  intro t txns htx
  unfold toSepaTransactions at htx
  obtain ⟨extra, he1, he2⟩ := toSepaFold_ids_sublist assets (0, []) (t, txns)
    htx
  have htxns : txns = extra := by
    have : (t, txns).2 = [] ++ extra := he1
    simpa using this
  subst htxns
  have hids : List.Pairwise (fun i j : Nat => i < j)
      (assets.map (fun a => a.debitor.id)) := by
    rw [List.pairwise_map]
    exact hassets
  have := List.Pairwise.sublist he2 hids
  rw [List.pairwise_map] at this
  exact this


/-- Witness for C9 at a single asset of amount 10: the transaction total is
exactly 10. -/
theorem C9_control_sum_exactness_witness :
    ∃ txns, toSepaTransactions [Asset.mk exExited "dues" 10 "T-mem"] =
      some (([Asset.mk exExited "dues" 10 "T-mem"].map
        (fun a => a.amount)).sum, txns) := by
  have h := C9_control_sum_exactness [Asset.mk exExited "dues" 10 "T-mem"]
    (by intro a ha
        rw [List.mem_singleton] at ha
        subst ha
        norm_num)
    (by intro a ha
        rw [List.mem_singleton] at ha
        subst ha
        rfl)
  exact h.1

/-- Witness for C10 at the output-directory example state, whose single
member yields a single asset. -/
theorem C10_deterministic_asset_order_witness :
    List.Pairwise (fun a b => a.debitor.id < b.debitor.id)
      [Asset.mk exExited "dues" 10 "T-mem"] := by
  have h := C10_deterministic_asset_order exTallyState exTarget true 99
    [Asset.mk exExited "dues" 10 "T-mem"] exArchivedState (by decide)
    exAssemble_eval
  exact h.1



theorem filterMap_assetSpec_filter_nil (st : State) (cd : Date)
    (p e2e : String) (mid : Nat) :
    ∀ ms : List Member, mid ∉ ms.map (fun m => m.id) →
      (ms.filterMap (assetSpec st cd p e2e)).filter
        (fun a => a.debitor.id == mid) = [] := by
  intro ms
  induction ms with
  | nil => intro _; rfl
  | cons x rest ih =>
      intro hmid
      rw [List.map_cons, List.mem_cons] at hmid
      push_neg at hmid
      rw [List.filterMap_cons]
      cases hx : assetSpec st cd p e2e x with
      | none => exact ih hmid.2
      | some a =>
          rw [List.filter_cons]
          have hda : a.debitor = x := assetSpec_debitor st cd p e2e x a hx
          have : (a.debitor.id == mid) = false := by
            rw [hda]
            simp only [beq_eq_false_iff_ne, ne_eq]
            exact fun hc => hmid.1 hc.symm
          rw [this]
          simp only [Bool.false_eq_true, if_false]
          exact ih hmid.2

theorem filterMap_assetSpec_filter_eq (st : State) (cd : Date)
    (p e2e : String) (mem : Member) :
    ∀ ms : List Member, (ms.map (fun m => m.id)).Nodup → mem ∈ ms →
      (ms.filterMap (assetSpec st cd p e2e)).filter
        (fun a => a.debitor.id == mem.id) =
        (assetSpec st cd p e2e mem).toList := by
  intro ms
  induction ms with
  | nil => intro _ hmem; exact absurd hmem (by simp)
  | cons x rest ih =>
      intro hnodup hmem
      rw [List.map_cons, List.nodup_cons] at hnodup
      by_cases hx : x = mem
      · subst hx
        rw [List.filterMap_cons]
        cases hs : assetSpec st cd p e2e x with
        | none =>
            rw [filterMap_assetSpec_filter_nil st cd p e2e x.id rest hnodup.1]
            rfl
        | some a =>
            rw [List.filter_cons]
            have hda : a.debitor = x := assetSpec_debitor st cd p e2e x a hs
            have hT : (a.debitor.id == x.id) = true := by
              rw [hda]; simp
            rw [hT]
            simp only [if_true]
            rw [filterMap_assetSpec_filter_nil st cd p e2e x.id rest hnodup.1]
            rfl
      · have hmem2 : mem ∈ rest := by
          rw [List.mem_cons] at hmem
          rcases hmem with h | h
          · exact absurd h.symm hx
          · exact h
        have hxid : x.id ≠ mem.id := by
          intro hc
          exact hnodup.1 (hc ▸ List.mem_map_of_mem (fun m => m.id) hmem2)
        rw [List.filterMap_cons]
        cases hs : assetSpec st cd p e2e x with
        | none => exact ih hnodup.2 hmem2
        | some a =>
            rw [List.filter_cons]
            have hda : a.debitor = x := assetSpec_debitor st cd p e2e x a hs
            have hF : (a.debitor.id == mem.id) = false := by
              rw [hda]
              simp only [beq_eq_false_iff_ne, ne_eq]
              exact hxid
            rw [hF]
            simp only [Bool.false_eq_true, if_false]
            exact ih hnodup.2 hmem2



/-- C6: assembling a tally (with one-time fee clearing) over a members
table with unique ids produces exactly the assets given by one pass over
the mandate-holding members in ascending id order, each carrying its total
fee; the archived table gains, per billed member in order, the stamped
copies of that member's outstanding one-time fees, which are removed from
the outstanding table.  Per member: a member with a mandate and positive
total fee contributes exactly one asset with that fee as amount and has no
outstanding one-time fees left, while a member without mandate or with a
zero total fee contributes no asset and keeps its one-time fees
outstanding. -/
theorem C6_tally_asset_selection (st : State) (cd : Date) (now : Int)
    (p e2e : String) (assets : List Asset) (st2 : State)
    (hnodup : (st.members.map (fun m => m.id)).Nodup)
    (he : getSetting st TallyE2EIdTemplateKey = some e2e)
    (hp : getSetting st TallyPurposeKey = some p)
    (h : assembleMonthlyFeeAssets st cd true now = some (assets, st2)) :
    assets = (sortedMandateMembers st).filterMap (assetSpec st cd p e2e) ∧
      st2.one_time_fees = st.one_time_fees.filter
        (fun f => !((assets.map (fun a => a.debitor.id)).any
          (fun i => f.member_id == i))) ∧
      st2.archived_one_time_fees = st.archived_one_time_fees ++
        (assets.map (fun a => a.debitor.id)).flatMap (fun i =>
          (st.one_time_fees.filter (fun f => f.member_id == i)).map
            (fun f =>
              ArchivedOneTimeFee.mk f.member_id f.reason f.amount now)) ∧
      (∀ mem ∈ st.members, mem.sepa_mandate_date.isSome →
        ∀ fee, computeTotalFee st mem cd = some fee → 0 < fee →
          assets.filter (fun a => a.debitor.id == mem.id) =
            [Asset.mk mem p fee e2e] ∧
            st2.one_time_fees.filter (fun f => f.member_id == mem.id) = []) ∧
      (∀ mem ∈ st.members,
        (mem.sepa_mandate_date = none ∨ computeTotalFee st mem cd = some 0) →
          (∀ a ∈ assets, a.debitor.id ≠ mem.id) ∧
            st2.one_time_fees.filter (fun f => f.member_id == mem.id) =
              st.one_time_fees.filter (fun f => f.member_id == mem.id)) := by
  obtain ⟨h1, h2⟩ := assemble_characterization st cd true now p e2e assets st2
    hnodup he hp h
  rw [if_pos rfl] at h2
  have hotf : st2.one_time_fees = st.one_time_fees.filter
      (fun f => !((assets.map (fun a => a.debitor.id)).any
        (fun i => f.member_id == i))) := by
    rw [h2]; rfl
  have haotf : st2.archived_one_time_fees = st.archived_one_time_fees ++
      (assets.map (fun a => a.debitor.id)).flatMap (fun i =>
        (st.one_time_fees.filter (fun f => f.member_id == i)).map
          (fun f =>
            ArchivedOneTimeFee.mk f.member_id f.reason f.amount now)) := by
    rw [h2]; rfl
  have hsortnodup := sortedMandateMembers_ids_nodup st hnodup
  refine ⟨h1, hotf, haotf, ?_, ?_⟩
  · -- billed member: exactly one asset, fees archived
    intro mem hmem hmand fee hfee hpos
    have hmemin : mem ∈ sortedMandateMembers st := by
      unfold sortedMandateMembers
      rw [List.mem_mergeSort, List.mem_filter]
      exact ⟨hmem, hmand⟩
    have hspec : assetSpec st cd p e2e mem = some (Asset.mk mem p fee e2e) := by
      unfold assetSpec
      simp only [hfee, if_pos hpos]
    constructor
    · rw [h1, filterMap_assetSpec_filter_eq st cd p e2e mem
        (sortedMandateMembers st) hsortnodup hmemin, hspec]
      rfl
    · rw [hotf, List.filter_filter, List.filter_eq_nil_iff]
      intro f _
      simp only [Bool.and_eq_true, beq_iff_eq, Bool.not_eq_eq_eq_not,
        Bool.not_true, not_and]
      intro hfid
      have hin : mem.id ∈ assets.map (fun a => a.debitor.id) := by
        have : Asset.mk mem p fee e2e ∈ assets := by
          have hne : assets.filter (fun a => a.debitor.id == mem.id) =
              [Asset.mk mem p fee e2e] := by
            rw [h1, filterMap_assetSpec_filter_eq st cd p e2e mem
              (sortedMandateMembers st) hsortnodup hmemin, hspec]
            rfl
          have : Asset.mk mem p fee e2e ∈
              assets.filter (fun a => a.debitor.id == mem.id) := by
            rw [hne]; simp
          exact (List.mem_filter.mp this).1
        exact (List.mem_map).mpr ⟨Asset.mk mem p fee e2e, this, rfl⟩
      rw [hfid]
      simp only [Bool.not_eq_false]
      rw [List.any_eq_true]
      exact ⟨mem.id, hin, by simp⟩
  · -- unbilled member: no asset, fees kept
    intro mem hmem hcase
    have hnoasset : ∀ a ∈ assets, a.debitor.id ≠ mem.id := by
      intro a ha hc
      rw [h1, List.mem_filterMap] at ha
      obtain ⟨x, hxin, hxspec⟩ := ha
      have hdx : a.debitor = x := assetSpec_debitor st cd p e2e x a hxspec
      have hxmem : x ∈ st.members := by
        have := hxin
        unfold sortedMandateMembers at this
        rw [List.mem_mergeSort, List.mem_filter] at this
        exact this.1
      have hxeq : x = mem := by
        apply List.inj_on_of_nodup_map hnodup hxmem hmem
        rw [← hdx, hc]
      subst hxeq
      rcases hcase with hmd | hz
      · have := hxin
        unfold sortedMandateMembers at this
        rw [List.mem_mergeSort, List.mem_filter] at this
        rw [hmd] at this
        exact absurd this.2 (by simp)
      · unfold assetSpec at hxspec
        rw [hz] at hxspec
        simp at hxspec
    refine ⟨hnoasset, ?_⟩
    rw [hotf, List.filter_filter]
    apply List.filter_congr
    intro f _
    by_cases hfid : f.member_id = mem.id
    · have hany : (assets.map (fun a => a.debitor.id)).any
          (fun i => f.member_id == i) = false := by
        rw [List.any_eq_false]
        intro i hi
        rw [List.mem_map] at hi
        obtain ⟨a, ha, rfl⟩ := hi
        simp only [beq_iff_eq]
        rw [hfid]
        exact fun hc => hnoasset a ha hc.symm
      rw [hany]
      simp [hfid]
    · simp [hfid]


/-- Witness for C6 at the output-directory example state: the single
member with mandate and fee 10 yields exactly its asset and loses its
outstanding one-time fee. -/
theorem C6_tally_asset_selection_witness :
    [Asset.mk exExited "dues" 10 "T-mem"] =
      (sortedMandateMembers exTallyState).filterMap
        (assetSpec exTallyState exTarget "dues" "T-mem") ∧
      exArchivedState.one_time_fees = exTallyState.one_time_fees.filter
        (fun f => !(([Asset.mk exExited "dues" 10 "T-mem"].map
          (fun a => a.debitor.id)).any (fun i => f.member_id == i))) := by
  have h := C6_tally_asset_selection exTallyState exTarget 99 "dues" "T-mem"
    [Asset.mk exExited "dues" 10 "T-mem"] exArchivedState (by decide) rfl rfl
    exAssemble_eval
  exact ⟨h.1, h.2.1⟩



theorem foldl_preserve {α β : Type} (P : β → Prop)
    (step : List β → α → List β)
    (hstep : ∀ acc r, (∀ x ∈ acc, P x) → ∀ x ∈ step acc r, P x) :
    ∀ (l : List α) (acc : List β), (∀ x ∈ acc, P x) →
      ∀ x ∈ l.foldl step acc, P x := by
  intro l
  induction l with
  | nil =>
      intro acc h x hx
      exact h x (by simpa using hx)
  | cons a l ih =>
      intro acc h x hx
      rw [List.foldl_cons] at hx
      exact ih _ (hstep acc a h) x hx

theorem relAdd_preserve (m : Member) (acc0 : List Member)
    (mo : Option Member) (hacc0 : ∀ w ∈ acc0, w.id ≠ m.id) :
    ∀ w ∈ (match mo with
      | some mm =>
          if mm.id != m.id && !(acc0.any (fun x => x.id == mm.id)) then
            acc0 ++ [mm]
          else acc0
      | none => acc0 : List Member), w.id ≠ m.id := by
  intro w hw
  cases mo with
  | none => exact hacc0 w hw
  | some mm =>
      have hw2 : w ∈ (if mm.id != m.id &&
          !(acc0.any (fun x => x.id == mm.id)) then acc0 ++ [mm]
          else acc0) := hw
      by_cases hc : (mm.id != m.id &&
          !(acc0.any (fun x => x.id == mm.id))) = true
      · rw [if_pos hc] at hw2
        rw [List.mem_append, List.mem_singleton] at hw2
        rcases hw2 with hw2 | hw2
        · exact hacc0 w hw2
        · subst hw2
          have := (Bool.and_eq_true _ _).mp hc
          simpa using this.1
      · rw [if_neg hc] at hw2
        exact hacc0 w hw2

theorem getRelatives_id_ne (st : State) (m : Member) :
    ∀ x ∈ getRelatives st m, x.id ≠ m.id := by
  intro x hx
  have hx2 : x ∈ (st.relations.filter
      (fun r => r.first_id == m.id || r.second_id == m.id)).foldl
      (fun acc r =>
        let acc1 :=
          match findMember st r.first_id with
          | some first =>
              if first.id != m.id && !(acc.any (fun x => x.id == first.id))
                then acc ++ [first]
              else acc
          | none => acc
        match findMember st r.second_id with
        | some second =>
            if second.id != m.id && !(acc1.any (fun x => x.id == second.id))
              then acc1 ++ [second]
            else acc1
        | none => acc1) [] := hx
  refine foldl_preserve (fun z => z.id ≠ m.id) _ ?_ _ []
    (by intro z hz; exact absurd hz (by simp)) x hx2
  intro acc r hacc
  exact relAdd_preserve m _ (findMember st r.second_id)
    (relAdd_preserve m acc (findMember st r.first_id) hacc)

theorem mapM_option_length {α β : Type} (f : α → Option β) :
    ∀ (l : List α) (fs : List β), l.mapM f = some fs →
      fs.length = l.length := by
  intro l
  induction l with
  | nil =>
      intro fs h
      rw [List.mapM_nil] at h
      injection h with h
      rw [← h]
      rfl
  | cons a l ih =>
      intro fs h
      rw [List.mapM_cons] at h
      cases ha : f a with
      | none => rw [ha] at h; simp at h
      | some y =>
          rw [ha] at h
          simp only [Option.bind_eq_bind, Option.some_bind] at h
          cases hl : l.mapM f with
          | none => rw [hl] at h; simp at h
          | some fs0 =>
              rw [hl] at h
              simp only [Option.bind_eq_bind, Option.some_bind] at h
              injection h with h
              rw [← h, List.length_cons, ih fs0 hl]
              rfl

theorem mapM_option_concat {α β : Type} (f : α → Option β) (l : List α)
    (x : α) (fs : List β) (h : (l ++ [x]).mapM f = some fs) :
    ∃ fs0 y, fs = fs0 ++ [y] ∧ l.mapM f = some fs0 ∧ f x = some y ∧
      fs0.length = l.length := by
  rw [List.mapM_append] at h
  cases hl : l.mapM f with
  | none => rw [hl] at h; simp at h
  | some fs0 =>
      rw [hl] at h
      simp only [Option.bind_eq_bind, Option.some_bind] at h
      cases hx : f x with
      | none =>
          rw [List.mapM_cons, hx] at h
          simp at h
      | some y =>
          rw [List.mapM_cons, hx, List.mapM_nil] at h
          simp only [Option.bind_eq_bind, Option.some_bind] at h
          have h2 : some (fs0 ++ [y]) = some fs := h
          injection h2 with h2
          exact ⟨fs0, y, h2.symm, rfl, rfl, mapM_option_length f l fs0 hl⟩



/-- C1: in the family-discount case (at least two adults and two children
among the member and its active relatives), rank the children together
with the two highest-fee-paying adults by non-discounted fee descending,
ties broken by member id descending.  The member's factor is 1 in the
first two positions, one half in positions three and four, 0 for a child
in position five or later, and 1 for an adult that is not among the two
selected adults. -/
theorem C1_family_discount_ranking (st : State) (m : Member) (d : Date)
    (relsA fam : List Member) (fees : List ℚ) (pairs : List (Member × ℚ))
    (children adults top2 ranked : List (Member × ℚ))
    (hrels : relsA = (getRelatives st m).filter (fun x => isActive x d))
    (hfam : fam = relsA ++ [m])
    (hfees : fam.mapM (fun x => computeMonthlyFeeND st x d) = some fees)
    (hpairs : pairs = fam.zip fees)
    (hch : children = pairs.filter (fun q => isChild q.1 d))
    (had : adults = pairs.filter (fun q => !(isChild q.1 d)))
    (htop : top2 = (adults.mergeSort feeDescB).take 2)
    (hrk : ranked = (children ++ top2).mergeSort feeIdDescB)
    (h2a : 2 ≤ adults.length) (h2c : 2 ≤ children.length) :
    (∀ i, ranked.findIdx? (fun q => q.1.id == m.id) = some i →
      (i < 2 → computeDiscount st m d = some 1) ∧
      ((i = 2 ∨ i = 3) → computeDiscount st m d = some (1 / 2)) ∧
      (4 ≤ i → isChild m d = true → computeDiscount st m d = some 0)) ∧
    (isChild m d = false → (∀ q ∈ top2, q.1.id ≠ m.id) →
      computeDiscount st m d = some 1) := by
  subst hrels
  subst hfam
  subst hpairs
  subst hch
  subst had
  subst htop
  subst hrk
  have h0 : ¬(((getRelatives st m).filter
      (fun x => isActive x d)).length = 0) := by
    intro h0eq
    have l1 := List.length_filter_le (fun q => isChild q.1 d)
      ((((getRelatives st m).filter (fun x => isActive x d)) ++ [m]).zip fees)
    have l2 := List.length_zip
      (((getRelatives st m).filter (fun x => isActive x d)) ++ [m]) fees
    have l3 : ((((getRelatives st m).filter
        (fun x => isActive x d)) ++ [m])).length =
        ((getRelatives st m).filter (fun x => isActive x d)).length + 1 := by
      simp
    have l4 := Nat.min_le_left
      ((((getRelatives st m).filter (fun x => isActive x d)) ++ [m])).length
      fees.length
    rw [l2] at l1
    omega
  have hred : computeDiscount st m d = some
      (match (((((getRelatives st m).filter (fun x => isActive x d) ++
          [m]).zip fees).filter (fun q => isChild q.1 d) ++
          List.take 2 (((((getRelatives st m).filter
            (fun x => isActive x d) ++ [m]).zip fees).filter
            (fun q => !(isChild q.1 d))).mergeSort feeDescB)
          ).mergeSort feeIdDescB).findIdx? (fun q => q.1.id == m.id) with
        | some i =>
            if 4 ≤ i then (if isChild m d then (0 : ℚ) else 1)
            else if 2 ≤ i then (1 / 2 : ℚ)
            else 1
        | none => 1) := by
    simp only [computeDiscount, computeDiscountCore]
    rw [if_neg h0]
    simp only [hfees]
    rw [if_pos ⟨h2a, h2c⟩]
  constructor
  · intro i hidx
    refine ⟨?_, ?_, ?_⟩
    · intro hi
      rw [hred]
      simp only [hidx]
      rw [if_neg (by omega), if_neg (by omega)]
    · intro hi
      rw [hred]
      simp only [hidx]
      rw [if_neg (by omega), if_pos (by omega)]
    · intro hi hc
      rw [hred]
      simp only [hidx]
      rw [if_pos (by omega), hc]
      simp only [if_true]
  · intro hnotchild htop2
    have hnone : ((((((getRelatives st m).filter (fun x => isActive x d) ++
        [m]).zip fees).filter (fun q => isChild q.1 d) ++
        List.take 2 (((((getRelatives st m).filter
          (fun x => isActive x d) ++ [m]).zip fees).filter
          (fun q => !(isChild q.1 d))).mergeSort feeDescB)
        ).mergeSort feeIdDescB).findIdx? (fun q => q.1.id == m.id)) =
          none := by
      rw [List.findIdx?_eq_none_iff]
      intro q hq
      rw [List.mem_mergeSort, List.mem_append] at hq
      have hgoal : q.1.id ≠ m.id → (q.1.id == m.id) = false := by
        intro hne
        simp only [beq_eq_false_iff_ne, ne_eq]
        exact hne
      rcases hq with hq | hq
      · rw [List.mem_filter] at hq
        obtain ⟨hqp, hqc⟩ := hq
        obtain ⟨fs0, y, hfs, hmapl, hfm, hlen⟩ :=
          mapM_option_concat _ _ _ _ hfees
        rw [hfs, List.zip_append hlen.symm] at hqp
        rw [List.mem_append] at hqp
        obtain ⟨q1, q2⟩ := q
        rcases hqp with hqp | hqp
        · have hmem := (List.of_mem_zip hqp).1
          have hmm := (List.mem_filter.mp hmem).1
          exact hgoal (getRelatives_id_ne st m q1 hmm)
        · have heq : (q1, q2) = (m, y) := by simpa using hqp
          have hq1 : q1 = m := by
            injection heq with h1 h2
          exfalso
          rw [hq1] at hqc
          rw [hnotchild] at hqc
          exact absurd hqc (by simp)
      · exact hgoal (htop2 q hq)
    rw [hred]
    simp only [hnone]



theorem mergeSortDesc_sorted (l : List ℚ) :
    List.Pairwise (fun a b => b ≤ a)
      (l.mergeSort (fun p q => decide (q ≤ p))) := by
  have := @List.sorted_mergeSort ℚ (fun p q : ℚ => decide (q ≤ p))
    (by intro x z w hxz hzw
        simp only [decide_eq_true_eq] at *
        exact le_trans hzw hxz)
    (by intro x z
        simp only [Bool.or_eq_true, decide_eq_true_eq]
        exact le_total z x)
    l
  exact this.imp (by intro x z h; simpa using h)

theorem mergeSortIdAsc_sorted (l : List (Member × ℚ)) :
    List.Pairwise (fun a b => a.1.id ≤ b.1.id) (l.mergeSort idAscB) := by
  have := @List.sorted_mergeSort (Member × ℚ) idAscB
    (by intro x z w hxz hzw
        simp only [idAscB, decide_eq_true_eq] at *
        exact le_trans hxz hzw)
    (by intro x z
        simp only [idAscB, Bool.or_eq_true, decide_eq_true_eq]
        exact le_total x.1.id z.1.id)
    l
  exact this.imp (by intro x z h; simpa [idAscB] using h)

theorem sortedDesc_head (l : List ℚ) (maxFee : ℚ) (hmem : maxFee ∈ l)
    (hub : ∀ f ∈ l, f ≤ maxFee) :
    ∃ rest, l.mergeSort (fun p q => decide (q ≤ p)) = maxFee :: rest := by
  have hperm := List.mergeSort_perm l (fun p q => decide (q ≤ p))
  have hsorted := mergeSortDesc_sorted l
  cases hms : l.mergeSort (fun p q => decide (q ≤ p)) with
  | nil =>
      exfalso
      have : l = [] := by
        have hl := hperm.length_eq
        rw [hms] at hl
        exact List.eq_nil_of_length_eq_zero hl.symm
      rw [this] at hmem
      exact absurd hmem (by simp)
  | cons f0 rest =>
      refine ⟨rest, ?_⟩
      have hf0mem : f0 ∈ l := hperm.mem_iff.mp (by rw [hms]; simp)
      have hf0le : f0 ≤ maxFee := hub f0 hf0mem
      have hmax_in : maxFee ∈ f0 :: rest := by
        rw [← hms]
        exact hperm.mem_iff.mpr hmem
      rw [List.mem_cons] at hmax_in
      rcases hmax_in with hcase | hcase
      · rw [hcase]
      · rw [hms] at hsorted
        have := (List.pairwise_cons.mp hsorted).1 maxFee hcase
        have heq : f0 = maxFee := le_antisymm hf0le this
        rw [heq]

theorem sortedIdAsc_head (l : List (Member × ℚ)) (q0 : Member × ℚ)
    (hmem : q0 ∈ l) :
    ∃ hmin rest, l.mergeSort idAscB = hmin :: rest ∧ hmin ∈ l ∧
      ∀ z ∈ l, hmin.1.id ≤ z.1.id := by
  have hperm := List.mergeSort_perm l idAscB
  have hsorted := mergeSortIdAsc_sorted l
  cases hms : l.mergeSort idAscB with
  | nil =>
      exfalso
      have : l = [] := by
        have hl := hperm.length_eq
        rw [hms] at hl
        exact List.eq_nil_of_length_eq_zero hl.symm
      rw [this] at hmem
      exact absurd hmem (by simp)
  | cons h0 rest =>
      refine ⟨h0, rest, rfl, hperm.mem_iff.mp (by rw [hms]; simp), ?_⟩
      intro z hz
      have hzin : z ∈ h0 :: rest := by
        rw [← hms]
        exact hperm.mem_iff.mpr hz
      rw [List.mem_cons] at hzin
      rcases hzin with hzin | hzin
      · rw [hzin]
      · rw [hms] at hsorted
        exact (List.pairwise_cons.mp hsorted).1 z hzin



/-- C2: in the sibling-discount case (member is a child, at least two
children in the family, and the family-discount case does not apply), a
child whose non-discounted fee is strictly below the maximum child fee
pays factor one half; a child tied at the maximum pays the full factor 1
exactly when it has the lowest member id among the children tied at the
maximum, and factor one half otherwise. -/
theorem C2_sibling_discount_tiebreak (st : State) (m : Member) (d : Date)
    (relsA fam : List Member) (fees : List ℚ) (pairs : List (Member × ℚ))
    (children adults tied : List (Member × ℚ)) (myFee maxFee : ℚ)
    (hrels : relsA = (getRelatives st m).filter (fun x => isActive x d))
    (hfam : fam = relsA ++ [m])
    (hfees : fam.mapM (fun x => computeMonthlyFeeND st x d) = some fees)
    (hpairs : pairs = fam.zip fees)
    (hch : children = pairs.filter (fun q => isChild q.1 d))
    (had : adults = pairs.filter (fun q => !(isChild q.1 d)))
    (hnotfam : ¬(2 ≤ adults.length ∧ 2 ≤ children.length))
    (hchild : isChild m d = true)
    (h2c : 2 ≤ children.length)
    (hmf : computeMonthlyFeeND st m d = some myFee)
    (htied : tied = children.filter (fun q => q.2 == maxFee))
    (hmax1 : maxFee ∈ children.map (fun q => q.2))
    (hmax2 : ∀ f ∈ children.map (fun q => q.2), f ≤ maxFee) :
    (myFee < maxFee → computeDiscount st m d = some (1 / 2)) ∧
      (myFee = maxFee → (∀ q ∈ tied, m.id ≤ q.1.id) →
        computeDiscount st m d = some 1) ∧
      (myFee = maxFee → (∃ q ∈ tied, q.1.id < m.id) →
        computeDiscount st m d = some (1 / 2)) := by
  subst hrels
  subst hfam
  subst hpairs
  subst hch
  subst had
  subst htied
  obtain ⟨fs0, y, hfs, hmapl, hfm, hlen⟩ := mapM_option_concat _ _ _ _ hfees
  have hy : y = myFee := by
    rw [hmf] at hfm
    injection hfm with h2
    exact h2.symm
  subst hy
  have hgl : fees.getLast? = some y := by
    rw [hfs]
    exact List.getLast?_concat _
  have hzip : ((getRelatives st m).filter (fun x => isActive x d) ++
      [m]).zip fees = ((getRelatives st m).filter
        (fun x => isActive x d)).zip fs0 ++ [(m, y)] := by
    rw [hfs, List.zip_append hlen.symm]
    rfl
  have hmempair : (m, y) ∈ (((getRelatives st m).filter
      (fun x => isActive x d) ++ [m]).zip fees).filter
        (fun q => isChild q.1 d) := by
    rw [List.mem_filter, hzip]
    constructor
    · rw [List.mem_append]
      right
      simp
    · exact hchild
  have h0 : ¬(((getRelatives st m).filter
      (fun x => isActive x d)).length = 0) := by
    intro h0eq
    have l1 := List.length_filter_le (fun q => isChild q.1 d)
      ((((getRelatives st m).filter (fun x => isActive x d)) ++ [m]).zip fees)
    have l2 := List.length_zip
      (((getRelatives st m).filter (fun x => isActive x d)) ++ [m]) fees
    have l3 : ((((getRelatives st m).filter
        (fun x => isActive x d)) ++ [m])).length =
        ((getRelatives st m).filter (fun x => isActive x d)).length + 1 := by
      simp
    have l4 := Nat.min_le_left
      ((((getRelatives st m).filter (fun x => isActive x d)) ++ [m])).length
      fees.length
    rw [l2] at l1
    omega
  obtain ⟨rest, hcf⟩ := sortedDesc_head _ maxFee hmax1 hmax2
  have hcflen : ((((((getRelatives st m).filter
      (fun x => isActive x d) ++ [m]).zip fees).filter
        (fun q => isChild q.1 d)).map (fun q => q.2)).mergeSort
          (fun p q => decide (q ≤ p))).length =
      ((((getRelatives st m).filter (fun x => isActive x d) ++
        [m]).zip fees).filter (fun q => isChild q.1 d)).length := by
    rw [List.length_mergeSort, List.length_map]
  obtain ⟨f1, rest2, hrest⟩ : ∃ f1 rest2, rest = f1 :: rest2 := by
    cases rest with
    | nil =>
        exfalso
        rw [hcf] at hcflen
        simp only [List.length_cons, List.length_nil] at hcflen
        omega
    | cons f1 rest2 => exact ⟨f1, rest2, rfl⟩
  subst hrest
  have hf1mem : f1 ∈ ((((getRelatives st m).filter
      (fun x => isActive x d) ++ [m]).zip fees).filter
        (fun q => isChild q.1 d)).map (fun q => q.2) := by
    have hperm := List.mergeSort_perm (((((getRelatives st m).filter
      (fun x => isActive x d) ++ [m]).zip fees).filter
        (fun q => isChild q.1 d)).map (fun q => q.2))
      (fun p q => decide (q ≤ p))
    exact hperm.mem_iff.mp (by rw [hcf]; simp)
  have hf1le : f1 ≤ maxFee := hmax2 f1 hf1mem
  have hred : computeDiscount st m d = some
      (if y < maxFee then (1 / 2 : ℚ)
        else if maxFee = f1 then
          match (((((getRelatives st m).filter
              (fun x => isActive x d) ++ [m]).zip fees).filter
                (fun q => isChild q.1 d)).filter
                  (fun q => q.2 == maxFee)).mergeSort idAscB |>.head? with
          | some highestPaying =>
              if highestPaying.1.id ≠ m.id then (1 / 2 : ℚ) else 1
          | none => 1
        else 1) := by
    simp only [computeDiscount, computeDiscountCore]
    rw [if_neg h0]
    simp only [hfees]
    rw [if_neg hnotfam, if_pos ⟨hchild, h2c⟩]
    rw [hcf, hgl]
  refine ⟨?_, ?_, ?_⟩
  · intro hlt
    rw [hred, if_pos hlt]
  · intro heq hminid
    rw [hred, if_neg (by rw [heq]; exact lt_irrefl maxFee)]
    by_cases hf1 : maxFee = f1
    · rw [if_pos hf1]
      obtain ⟨hmin, restm, hms, hminmem, hminle⟩ := sortedIdAsc_head
        ((((((getRelatives st m).filter (fun x => isActive x d) ++
          [m]).zip fees).filter (fun q => isChild q.1 d)).filter
            (fun q => q.2 == maxFee))) (m, y)
        (by rw [List.mem_filter]
            exact ⟨hmempair, by rw [heq]; simp⟩)
      simp only [hms, List.head?_cons]
      have h1 : m.id ≤ hmin.1.id := hminid hmin hminmem
      have h2 : hmin.1.id ≤ m.id := by
        have := hminle (m, y) (by
          rw [List.mem_filter]
          exact ⟨hmempair, by rw [heq]; simp⟩)
        exact this
      have hideq : hmin.1.id = m.id := le_antisymm h2 h1
      rw [if_neg (by rw [hideq]; simp)]
    · rw [if_neg hf1]
  · intro heq hex
    obtain ⟨q, hqtied, hqlt⟩ := hex
    have hf1eq : maxFee = f1 := by
      by_contra hf1
      have hflt : f1 < maxFee := lt_of_le_of_ne hf1le (fun hc => hf1 hc.symm)
      have hcount : (((((getRelatives st m).filter
          (fun x => isActive x d) ++ [m]).zip fees).filter
            (fun q => isChild q.1 d)).map (fun q => q.2)).count maxFee =
          ((((((getRelatives st m).filter (fun x => isActive x d) ++
            [m]).zip fees).filter (fun q => isChild q.1 d)).filter
              (fun q => q.2 == maxFee))).length := by
        rw [List.count_eq_countP, List.countP_map,
          List.countP_eq_length_filter]
        rfl
      have htl2 : 2 ≤ ((((((getRelatives st m).filter
          (fun x => isActive x d) ++ [m]).zip fees).filter
            (fun q => isChild q.1 d)).filter
              (fun q => q.2 == maxFee))).length := by
        have hmtied : (m, y) ∈ (((((getRelatives st m).filter
            (fun x => isActive x d) ++ [m]).zip fees).filter
              (fun q => isChild q.1 d)).filter
                (fun q => q.2 == maxFee)) := by
          rw [List.mem_filter]
          exact ⟨hmempair, by rw [heq]; simp⟩
        have hqne : q ≠ (m, y) := by
          intro hc
          rw [hc] at hqlt
          exact absurd hqlt (by simp)
        cases htl : (((((getRelatives st m).filter
            (fun x => isActive x d) ++ [m]).zip fees).filter
              (fun q => isChild q.1 d)).filter
                (fun q => q.2 == maxFee)) with
        | nil => rw [htl] at hmtied; exact absurd hmtied (by simp)
        | cons x t =>
            cases t with
            | nil =>
                exfalso
                rw [htl] at hmtied hqtied
                rw [List.mem_singleton] at hmtied hqtied
                exact hqne (hqtied.trans hmtied.symm)
            | cons x2 t2 => simp
      have hcount2 : 2 ≤ ((maxFee :: f1 :: rest2).count maxFee) := by
        have hperm := List.mergeSort_perm (((((getRelatives st m).filter
          (fun x => isActive x d) ++ [m]).zip fees).filter
            (fun q => isChild q.1 d)).map (fun q => q.2))
          (fun p q => decide (q ≤ p))
        rw [← hcf]
        rw [hperm.count_eq]
        rw [hcount]
        exact htl2
      have hpos0 : 0 < (f1 :: rest2).count maxFee := by
        have hc1 : (maxFee :: f1 :: rest2).count maxFee =
            (f1 :: rest2).count maxFee + 1 := by
          simp [List.count_cons]
        omega
      have hmem2 : maxFee ∈ f1 :: rest2 := List.count_pos_iff.mp hpos0
      rw [List.mem_cons] at hmem2
      rcases hmem2 with hc | hc
      · exact hf1 hc
      · have hsorted := mergeSortDesc_sorted (((((getRelatives st m).filter
          (fun x => isActive x d) ++ [m]).zip fees).filter
            (fun q => isChild q.1 d)).map (fun q => q.2))
        rw [hcf] at hsorted
        have h1 := (List.pairwise_cons.mp
          ((List.pairwise_cons.mp hsorted).2)).1 maxFee hc
        exact absurd (lt_of_le_of_lt h1 hflt) (lt_irrefl maxFee)
    rw [hred, if_neg (by rw [heq]; exact lt_irrefl maxFee), if_pos hf1eq]
    obtain ⟨hmin, restm, hms, hminmem, hminle⟩ := sortedIdAsc_head
      ((((((getRelatives st m).filter (fun x => isActive x d) ++
        [m]).zip fees).filter (fun q => isChild q.1 d)).filter
          (fun q => q.2 == maxFee))) (m, y)
      (by rw [List.mem_filter]
          exact ⟨hmempair, by rw [heq]; simp⟩)
    simp only [hms, List.head?_cons]
    have hlt2 : hmin.1.id < m.id := lt_of_le_of_lt (hminle q hqtied) hqlt
    rw [if_pos (show hmin.1.id ≠ m.id from by omega)]




/-- Witness for C1 at the two-adult three-children family with fees
5, 5, 4, 4, 4: the child with the lowest id is ranked fifth and goes
free. -/
theorem C1_family_discount_ranking_witness :
    computeDiscount exFamilyState exChild3 exTarget = some 0 := by
  have hrels : [exAdult1, exAdult2, exChild4, exChild5] =
      (getRelatives exFamilyState exChild3).filter
        (fun x => isActive x exTarget) := rfl
  have hgfA : getFixedCost exFamilyState BasicFeeAdultsKey = some 5 := rfl
  have hgfY : getFixedCost exFamilyState BasicFeeYouthsKey = some 4 := rfl
  have hov : ∀ i, findOverride exFamilyState i = none := fun i => rfl
  have htc : ∀ mm, trainedSessionCount exFamilyState mm = 0 := fun mm => rfl
  have hsf : ∀ mm dd, sessionFees exFamilyState mm dd = [] :=
    fun mm dd => rfl
  have hfees : ([exAdult1, exAdult2, exChild4, exChild5] ++
      [exChild3]).mapM
        (fun x => computeMonthlyFeeND exFamilyState x exTarget) =
      some [5, 5, 4, 4, 4] := by
    norm_num [List.mapM, List.mapM.loop, computeMonthlyFeeND, hov, htc, hsf,
      baseFee, hgfA, hgfY, topTwoContribution, nominalYearDiff,
      Date.ltB, Date.leB, exAdult1, exAdult2, exChild3, exChild4,
      exChild5, exTarget, List.mergeSort]
  have htop : [(exAdult1, (5 : ℚ)), (exAdult2, 5)] =
      (((([exAdult1, exAdult2, exChild4, exChild5] ++ [exChild3]).zip
        ([5, 5, 4, 4, 4] : List ℚ)).filter
          (fun q => !(isChild q.1 exTarget))).mergeSort feeDescB).take 2 := by
    norm_num [List.mergeSort, List.merge, feeDescB, isChild, nominalYearDiff,
      exAdult1, exAdult2, exChild3, exChild4, exChild5, exTarget,
      List.filter, List.zip, List.zipWith]
  have hrk : [(exAdult2, (5 : ℚ)), (exAdult1, 5), (exChild5, 4),
      (exChild4, 4), (exChild3, 4)] =
      ((((([exAdult1, exAdult2, exChild4, exChild5] ++ [exChild3]).zip
        ([5, 5, 4, 4, 4] : List ℚ)).filter
          (fun q => isChild q.1 exTarget)) ++
        [(exAdult1, (5 : ℚ)), (exAdult2, 5)]).mergeSort feeIdDescB) := by
    norm_num [List.mergeSort, List.merge, feeIdDescB, isChild,
      nominalYearDiff, exAdult1, exAdult2, exChild3, exChild4, exChild5,
      exTarget, List.filter, List.zip, List.zipWith]
  have h := C1_family_discount_ranking exFamilyState exChild3 exTarget
    [exAdult1, exAdult2, exChild4, exChild5]
    ([exAdult1, exAdult2, exChild4, exChild5] ++ [exChild3])
    [5, 5, 4, 4, 4]
    (([exAdult1, exAdult2, exChild4, exChild5] ++ [exChild3]).zip
      ([5, 5, 4, 4, 4] : List ℚ))
    ((([exAdult1, exAdult2, exChild4, exChild5] ++ [exChild3]).zip
      ([5, 5, 4, 4, 4] : List ℚ)).filter (fun q => isChild q.1 exTarget))
    ((([exAdult1, exAdult2, exChild4, exChild5] ++ [exChild3]).zip
      ([5, 5, 4, 4, 4] : List ℚ)).filter (fun q => !(isChild q.1 exTarget)))
    [(exAdult1, 5), (exAdult2, 5)]
    [(exAdult2, 5), (exAdult1, 5), (exChild5, 4), (exChild4, 4),
      (exChild3, 4)]
    hrels rfl hfees rfl rfl rfl htop hrk (by decide) (by decide)
  exact (h.1 4 rfl).2.2 (by omega) (by decide)



/-- Witness for C2 at the sibling pair with equal fees: the sibling with
the higher id is not the lowest-id tied child and pays half. -/
theorem C2_sibling_discount_tiebreak_witness :
    computeDiscount exState exSam exTarget = some (1 / 2) := by
  have hgfY : getFixedCost exState BasicFeeYouthsKey = some 4 := rfl
  have hov : ∀ i, findOverride exState i = none := fun i => rfl
  have htc : ∀ mm, trainedSessionCount exState mm = 0 := fun mm => rfl
  have hsf : ∀ mm dd, sessionFees exState mm dd = [] := fun mm dd => rfl
  have hfees : ([exSally] ++ [exSam]).mapM
      (fun x => computeMonthlyFeeND exState x exTarget) =
      some [4, 4] := by
    norm_num [List.mapM, List.mapM.loop, computeMonthlyFeeND, hov, htc, hsf,
      baseFee, hgfY, topTwoContribution, nominalYearDiff, Date.ltB,
      Date.leB, exSally, exSam, exTarget, List.mergeSort]
  have hmf : computeMonthlyFeeND exState exSam exTarget = some 4 := by
    norm_num [computeMonthlyFeeND, hov, htc, hsf, baseFee, hgfY,
      topTwoContribution, nominalYearDiff, Date.ltB, Date.leB, exSally,
      exSam, exTarget, List.mergeSort]
  have htied : [(exSally, (4 : ℚ)), (exSam, 4)] =
      ((([exSally] ++ [exSam]).zip ([4, 4] : List ℚ)).filter
        (fun q => isChild q.1 exTarget)).filter
          (fun q => q.2 == (4 : ℚ)) := by
    norm_num [isChild, nominalYearDiff, exSally, exSam, exTarget,
      List.filter, List.zip, List.zipWith]
  have h := C2_sibling_discount_tiebreak exState exSam exTarget
    [exSally] ([exSally] ++ [exSam]) [4, 4]
    (([exSally] ++ [exSam]).zip ([4, 4] : List ℚ))
    ((([exSally] ++ [exSam]).zip ([4, 4] : List ℚ)).filter
      (fun q => isChild q.1 exTarget))
    ((([exSally] ++ [exSam]).zip ([4, 4] : List ℚ)).filter
      (fun q => !(isChild q.1 exTarget)))
    [(exSally, 4), (exSam, 4)] 4 4
    rfl rfl hfees rfl rfl rfl
    (by decide) (by decide) (by decide) hmf htied
    (by norm_num [isChild, nominalYearDiff, exSally, exSam, exTarget,
      List.filter, List.zip, List.zipWith])
    (by intro f hf
        have hf2 : f = 4 ∨ f = 4 ∨ False := by
          simpa [isChild, nominalYearDiff, exSally, exSam, exTarget,
            List.filter, List.zip, List.zipWith] using hf
        rcases hf2 with h | h | h
        · rw [h]
        · rw [h]
        · exact absurd h (by simp))
  exact h.2.2 rfl ⟨(exSally, 4), List.mem_cons_self _ _, by decide⟩


end Memmer
